import Mathlib

/-!
Verification of the sink-manager worker task-execution loop
(`cdc/processor/sinkmanager/worker_impl.go` and `worker.go`).

The Go code is shallowly embedded as follows.

* `Position`, `PolymorphicEvent`, `ResolvedTs` mirror the data types the
  worker manipulates (`sorter.Position`, `model.PolymorphicEvent`,
  `model.ResolvedTs`).  Machine integers (`uint64`) are modelled as `Nat`;
  the one place where overflow matters (the `currentBarrierTs - 1`
  subtraction when computing the fetch upper bound) is modelled with an
  explicit `% 2 ^ 64`.
* The worker's externally observable actions (memory-quota calls, sink
  emits, resolved-timestamp publishes, the refund, the completion
  callback, the cursor close) are recorded in an ordered `trace`
  (`List TraceOp`) carried in the run state, so temporal claims become
  statements about the order of trace entries.
* External collaborators that are not part of the analyzed sources
  (the sort-engine cursor's contents, the sink's verification outcome,
  the sink's publish outcome, and the memory quota's `IsExceed` answer,
  which is subject to concurrent mutation by other workers) are inputs:
  the cursor is a list of `(event, position)` yields and the rest are
  oracle functions in `Env`.
* `processItem` is the body of the `for` fetch loop of `run`
  (worker_impl.go lines 57-120), `runLoop` is the loop itself, and
  `runTask` adds the per-task prologue and epilogue
  (lines 45-56 and 121-127).
-/

namespace SinkWorker

/-- Position mirrors `sorter.Position`: a pair of a commit timestamp and a
start timestamp identifying a point in the commit-ordered event stream. -/
structure Position where
  commitTs : Nat
  startTs : Nat
deriving Repr, DecidableEq

/-- Lexicographic strict order on positions, commit timestamp major. -/
def posLt (a b : Position) : Bool :=
  a.commitTs < b.commitTs || (a.commitTs == b.commitTs && a.startTs < b.startTs)

/-- Reflexive closure of `posLt`. -/
def posLe (a b : Position) : Bool :=
  posLt a b || a == b

/-- PolymorphicEvent keeps the two attributes of `model.PolymorphicEvent`
the worker reads: the commit timestamp `e.CRTs` and the approximate
in-memory size `e.Row.ApproximateBytes()`. -/
structure PolymorphicEvent where
  crts : Nat
  size : Nat
deriving Repr, DecidableEq

/-- ResolvedTs mirrors `model.ResolvedTs`: a commit timestamp, a mode flag
(`isBatch = true` is `model.BatchResolvedMode`), and a batch identifier. -/
structure ResolvedTs where
  ts : Nat
  isBatch : Bool
  batchID : Nat
deriving Repr, DecidableEq

/-- NewResolvedTs mirrors `model.NewResolvedTs`: a normal-mode resolved
timestamp carrying the given commit timestamp. -/
def newResolvedTs (ts : Nat) : ResolvedTs := ⟨ts, false, 0⟩

/-- One externally observable action of the worker, in program order. -/
inductive TraceOp where
  /-- A `memQuota.ForceAcquire(n)` call (worker_impl.go line 67). -/
  | forceAcquire (n : Nat)
  /-- The event was taken from the cursor and appended to the pending
  batch (lines 58 and 71). -/
  | consume (e : PolymorphicEvent) (pos : Position)
  /-- A `memQuota.ResetBatchID` call (line 76). -/
  | resetBatch
  /-- A successful `emitEventsToTableSink` call flushing the given pending
  batch to the table sink (lines 80, 106 and 132-146). -/
  | emit (events : List PolymorphicEvent)
  /-- A `memQuota.Record(tableID, rts, size)` call (line 154). -/
  | record (rts : ResolvedTs) (size : Nat)
  /-- A `tableSink.updateTableSinkResolvedTs(rts)` publish (line 155). -/
  | updateRts (rts : ResolvedTs)
  /-- The `memQuota.Refund` of the unused allowance (line 122). -/
  | refund (n : Nat)
  /-- The completion callback `t.callback(lastPos)` (line 124). -/
  | callbackOp (pos : Position)
  /-- The `iter.Close()` call (line 125). -/
  | iterClose
deriving Repr, DecidableEq

/-- Error outcomes that abort the task: the cursor `Next` failing, the
sink rejecting an event in `verifyAndTrySplitEvent`, the sink rejecting a
resolved-timestamp publish, and `iter.Close` failing. -/
inductive RunError where
  | fetchFail
  | verifyFail
  | updateFail
  | closeFail
deriving Repr, DecidableEq

/-- Static worker configuration: the `splitTxn` and `batchSize` fields of
`workerImpl` plus the `defaultMemoryUsage` grant-unit constant, which is
declared outside the analyzed sources; its exact value is irrelevant, it
is kept abstract as a positive field. -/
structure WorkerCfg where
  splitTxn : Bool
  batchSize : Nat
  defaultMemoryUsage : Nat
  defaultMemoryUsage_pos : 0 < defaultMemoryUsage

/-- Behaviour of the external collaborators during one task: the engine's
position-validity predicate, whether `verifyAndTrySplitEvent` rejects an
event, whether the n-th `updateTableSinkResolvedTs` publish fails, and
the answer of the n-th `memQuota.IsExceed` query (the global quota is
mutated concurrently by other workers, so its answers are an input). -/
structure Env where
  valid : Position → Bool
  verifyErr : PolymorphicEvent → Bool
  updateErr : Nat → Bool
  isExceed : Nat → Bool

/-- The mutable state of one execution of the task body of `run`
(worker_impl.go lines 45-56), extended with the observable `trace`. -/
structure RunState where
  availableMem : Nat
  events : List PolymorphicEvent
  lastPos : Position
  lastTotalSize : Nat
  batchCount : Nat
  batchID : Nat
  exceedCalls : Nat
  updateCalls : Nat
  trace : List TraceOp
deriving Repr

/-- Outcome of one iteration of the fetch loop. -/
inductive StepResult where
  /-- Fall through to the next loop iteration. -/
  | next (st : RunState)
  /-- The `break` on quota exceedance (line 101). -/
  | brk (st : RunState)
  /-- An error return aborting the task. -/
  | fail (st : RunState) (er : RunError)
deriving Repr

/-- State carried by a step outcome. -/
def StepResult.state : StepResult → RunState
  | .next st => st
  | .brk st => st
  | .fail st _ => st

/-- Outcome of the whole fetch loop. -/
inductive LoopResult where
  /-- The cursor was exhausted (`e == nil`, line 63). -/
  | done (st : RunState)
  /-- The loop ended through the quota `break`. -/
  | stopped (st : RunState)
  /-- The loop ended through an error return. -/
  | failed (st : RunState) (er : RunError)
deriving Repr

/-- The `maxUpdateIntervalSize` constant (worker_impl.go line 24). -/
def maxUpdateIntervalSize : Nat := 256 * 1024 * 1024

/-- The force-acquire loop (worker_impl.go lines 66-69): while the event
size exceeds the allowance, acquire one more default grant unit.  Returns
the final allowance and the number of `ForceAcquire` calls made. -/
def acquireAvailableMem (cfg : WorkerCfg) (availableMem size : Nat) : Nat × Nat :=
  if availableMem < size then
    let r := acquireAvailableMem cfg (availableMem + cfg.defaultMemoryUsage) size
    (r.1, r.2 + 1)
  else
    (availableMem, 0)
termination_by size - availableMem
decreasing_by
  have hpos := cfg.defaultMemoryUsage_pos
  omega

/-- The flush step `emitEventsToTableSink` (worker_impl.go lines 132-146):
each pending event is verified (and possibly split) by the sink; the
first rejection aborts with an error, otherwise the batch is appended to
the sink and the total approximate byte size is returned.  `none` is the
error outcome. -/
def emitEventsToTableSink (env : Env) : List PolymorphicEvent → Option Nat
  | [] => some 0
  | e :: rest =>
    if env.verifyErr e then none
    else (emitEventsToTableSink env rest).map (fun s => e.size + s)

/-- The watermark-advance step `updateTableSinkResolvedTs`
(worker_impl.go lines 148-156): build a resolved timestamp from the
commit timestamp; under `splitTxn` switch it to batch mode with a fresh
batch identifier (the quota's `AllocateBatchID`, modelled from the spec
as a per-table counter returning strictly increasing identifiers);
`Record` the flushed size; publish to the sink.  The returned flag is
true when the sink rejects the publish. -/
def updateTableSinkResolvedTs (cfg : WorkerCfg) (env : Env) (st : RunState)
    (commitTs size : Nat) : RunState × Bool :=
  let rts :=
    if cfg.splitTxn then ResolvedTs.mk commitTs true st.batchID
    else newResolvedTs commitTs
  let st1 : RunState :=
    if cfg.splitTxn then { st with batchID := st.batchID + 1 } else st
  let bad := env.updateErr st1.updateCalls
  ({ st1 with
      updateCalls := st1.updateCalls + 1,
      trace := st1.trace ++ [TraceOp.record rts size, TraceOp.updateRts rts] },
    bad)

/-- The guarded watermark advance shared by worker_impl.go lines 86-92
and 111-117: when the accumulated flushed size reaches
`maxUpdateIntervalSize`, publish and reset the accumulator. -/
def advanceIfBig (cfg : WorkerCfg) (env : Env) (st : RunState) (commitTs : Nat) :
    RunState × Bool :=
  if maxUpdateIntervalSize ≤ st.lastTotalSize then
    let r := updateTableSinkResolvedTs cfg env st commitTs st.lastTotalSize
    (if r.2 then r.1 else { r.1 with lastTotalSize := 0 }, r.2)
  else
    (st, false)

/-- The `splitTxn` mid-transaction flush block (worker_impl.go
lines 104-119).  Note that `batchCount` is read here but never
incremented anywhere in `run`, exactly as in the source. -/
def splitStep (cfg : WorkerCfg) (env : Env) (e : PolymorphicEvent)
    (st : RunState) : StepResult :=
  if cfg.splitTxn && cfg.batchSize ≤ st.batchCount then
    match emitEventsToTableSink env st.events with
    | none => .fail st RunError.verifyFail
    | some size =>
      let st1 := { st with
        trace := st.trace ++ [TraceOp.emit st.events],
        lastTotalSize := st.lastTotalSize + size }
      let r := advanceIfBig cfg env st1 e.crts
      if r.2 then .fail r.1 RunError.updateFail
      else .next { r.1 with events := [] }
  else
    .next st

/-- The flush-advance-check part of the transaction-boundary handling
(worker_impl.go lines 78-103 followed by the fall-through to
lines 104-119), entered after `lastPos` and the batch-identifier reset
have been handled. -/
def boundaryFlush (cfg : WorkerCfg) (env : Env) (e : PolymorphicEvent)
    (st : RunState) : StepResult :=
  match emitEventsToTableSink env st.events with
  | none => .fail st RunError.verifyFail
  | some size =>
    let st1 := { st with
      trace := st.trace ++ [TraceOp.emit st.events],
      lastTotalSize := st.lastTotalSize + size,
      events := [] }
    let r := advanceIfBig cfg env st1 e.crts
    if r.2 then .fail r.1 RunError.updateFail
    else
      let st2 := r.1
      let ans := env.isExceed st2.exceedCalls
      let st3 := { st2 with exceedCalls := st2.exceedCalls + 1 }
      if ans then
        let r2 := updateTableSinkResolvedTs cfg env st3 e.crts st3.lastTotalSize
        if r2.2 then .fail r2.1 RunError.updateFail
        else .brk { r2.1 with lastTotalSize := 0 }
      else
        splitStep cfg env e st3

/-- The part of the loop body handling a valid (transaction-boundary)
position (worker_impl.go lines 73-103), entered with the event already
consumed and appended. -/
def boundaryStep (cfg : WorkerCfg) (env : Env) (e : PolymorphicEvent)
    (pos : Position) (st : RunState) : StepResult :=
  let st := { st with lastPos := pos }
  let st :=
    if cfg.splitTxn then
      { st with batchID := 1, trace := st.trace ++ [TraceOp.resetBatch] }
    else st
  boundaryFlush cfg env e st

/-- One iteration of the fetch loop of `run` (worker_impl.go
lines 57-120) applied to the cursor yield `(e, pos)`. -/
def processItem (cfg : WorkerCfg) (env : Env) (e : PolymorphicEvent)
    (pos : Position) (st : RunState) : StepResult :=
  let a := acquireAvailableMem cfg st.availableMem e.size
  let st := { st with
    availableMem := a.1 - e.size,
    events := st.events ++ [e],
    trace := st.trace
      ++ List.replicate a.2 (TraceOp.forceAcquire cfg.defaultMemoryUsage)
      ++ [TraceOp.consume e pos] }
  if env.valid pos then boundaryStep cfg env e pos st
  else splitStep cfg env e st

/-- The fetch loop of `run` over the cursor's yields. -/
def runLoop (cfg : WorkerCfg) (env : Env) :
    List (PolymorphicEvent × Position) → RunState → LoopResult
  | [], st => .done st
  | (e, pos) :: rest, st =>
    match processItem cfg env e pos st with
    | .next st1 => runLoop cfg env rest st1
    | .brk st1 => .stopped st1
    | .fail st1 er => .failed st1 er

/-- One task as the worker sees it: the `tableSinkTask` fields `run`
reads, plus the behaviour of the cursor obtained from
`sortEngine.FetchByTable` — its yields in order, whether `Next` fails
after them, and whether `iter.Close` fails. -/
structure TaskInput where
  lowerBound : Position
  barrierTs : Nat
  items : List (PolymorphicEvent × Position)
  endsWithFetchError : Bool
  closeFails : Bool

/-- The per-task initialisation of `run` (worker_impl.go lines 45-50):
one default grant unit of allowance, an empty pending batch, the Go
zero-value `sorter.Position{}` as `lastPos`, zero counters. -/
def initState (cfg : WorkerCfg) : RunState :=
  { availableMem := cfg.defaultMemoryUsage
    events := []
    lastPos := ⟨0, 0⟩
    lastTotalSize := 0
    batchCount := 0
    batchID := 1
    exceedCalls := 0
    updateCalls := 0
    trace := [] }

/-- The task epilogue (worker_impl.go lines 121-127): refund the unused
allowance, invoke the completion callback with `lastPos`, close the
cursor; a failing close aborts the worker after those effects. -/
def finishTask (st : RunState) (t : TaskInput) : RunState × Option RunError :=
  let st1 := { st with trace := st.trace
    ++ [TraceOp.refund st.availableMem, TraceOp.callbackOp st.lastPos,
        TraceOp.iterClose] }
  (st1, if t.closeFails then some RunError.closeFail else none)

/-- One full task execution (the body of the `case t := <-taskChan` arm
of `run`, worker_impl.go lines 44-127), from the prologue through the
fetch loop to the epilogue.  The second component is `none` when the
task completes and the worker goes back to its top-level wait. -/
def runTask (cfg : WorkerCfg) (env : Env) (t : TaskInput) :
    RunState × Option RunError :=
  match runLoop cfg env t.items (initState cfg) with
  | .failed st er => (st, some er)
  | .done st =>
    if t.endsWithFetchError then (st, some RunError.fetchFail)
    else finishTask st t
  | .stopped st => finishTask st t

/-- The uint64 modulus. -/
def uint64Mod : Nat := 2 ^ 64

/-- The wrapping uint64 decrement used at worker_impl.go line 53
(`currentBarrierTs - 1` on a `uint64`). -/
def uint64Sub1 (b : Nat) : Nat := (b + (uint64Mod - 1)) % uint64Mod

/-- The fetch upper bound computed from the barrier timestamp loaded at
task start (worker_impl.go lines 51-55). -/
def computeUpperBound (barrierTs : Nat) : Position :=
  ⟨uint64Sub1 barrierTs, barrierTs % uint64Mod⟩

/-- Modelled from the spec: `sortEngine.FetchByTable` is not part of the
analyzed sources; per the spec it returns a cursor over the events whose
positions lie in the half-open range from the lower bound (inclusive) to
the upper bound (exclusive), in ascending commit order. -/
def fetchByTable (engineEvents : List (PolymorphicEvent × Position))
    (lower upper : Position) : List (PolymorphicEvent × Position) :=
  engineEvents.filter (fun it => posLe lower it.2 && posLt it.2 upper)

/-- A task execution whose cursor contents are obtained from the engine
through `FetchByTable` with the bounds `run` computes (worker_impl.go
lines 51-56). -/
def runTaskFromEngine (cfg : WorkerCfg) (env : Env)
    (engineEvents : List (PolymorphicEvent × Position)) (lowerBound : Position)
    (barrierTs : Nat) (endsWithFetchError closeFails : Bool) :
    RunState × Option RunError :=
  runTask cfg env
    { lowerBound := lowerBound
      barrierTs := barrierTs
      items := fetchByTable engineEvents lowerBound (computeUpperBound barrierTs)
      endsWithFetchError := endsWithFetchError
      closeFails := closeFails }

/-- A Go runtime panic relevant to `close` (worker.go/worker_impl.go). -/
inductive GoPanic where
  | closeOfClosedChannel
deriving Repr, DecidableEq

/-- Go channel close semantics for `close(w.closedChan)`
(worker_impl.go lines 158-160): closing sets the channel closed, but
closing an already-closed channel panics. -/
def closeChannel (alreadyClosed : Bool) : Except GoPanic Bool :=
  if alreadyClosed then Except.error GoPanic.closeOfClosedChannel
  else Except.ok true

/-- What the worker can observe at its top-level `select`
(worker_impl.go lines 41-44): either the closed channel fires or a task
arrives. -/
inductive Arrival where
  | closedSignal
  | task (t : TaskInput)

/-- The top-level loop of `run` over a finite schedule of select
outcomes.  `none` means `run` is still blocked at the select;
`some none` means `run` returned `nil`; `some (some er)` means `run`
returned the error `er`. -/
def runWorker (cfg : WorkerCfg) (env : Env) :
    List Arrival → Option (Option RunError)
  | [] => none
  | Arrival.closedSignal :: _ => some none
  | Arrival.task t :: rest =>
    match runTask cfg env t with
    | (_, some er) => some (some er)
    | (_, none) => runWorker cfg env rest

/-! Trace measurements: functions reading off the observable actions of a
run from its trace.  The temporal claims are stated in terms of these. -/

/-- The `(event, position)` pairs consumed from the cursor, in order. -/
def consumedPairs : List TraceOp → List (PolymorphicEvent × Position)
  | [] => []
  | TraceOp.consume e p :: r => (e, p) :: consumedPairs r
  | _ :: r => consumedPairs r

/-- The events consumed from the cursor, in order. -/
def consumedEvents (l : List TraceOp) : List PolymorphicEvent :=
  (consumedPairs l).map Prod.fst

/-- The events emitted to the table sink, in order. -/
def emittedEvents : List TraceOp → List PolymorphicEvent
  | [] => []
  | TraceOp.emit evs :: r => evs ++ emittedEvents r
  | _ :: r => emittedEvents r

/-- The number of flush calls (`emitEventsToTableSink` reaching the
sink). -/
def emitCalls : List TraceOp → Nat
  | [] => 0
  | TraceOp.emit _ :: r => emitCalls r + 1
  | _ :: r => emitCalls r

/-- Total bytes granted through `ForceAcquire` calls. -/
def forceAcquiredBytes : List TraceOp → Nat
  | [] => 0
  | TraceOp.forceAcquire n :: r => n + forceAcquiredBytes r
  | _ :: r => forceAcquiredBytes r

/-- Total bytes accounted through `memQuota.Record` calls. -/
def recordedBytes : List TraceOp → Nat
  | [] => 0
  | TraceOp.record _ n :: r => n + recordedBytes r
  | _ :: r => recordedBytes r

/-- Total bytes released through `memQuota.Refund` calls. -/
def refundedBytes : List TraceOp → Nat
  | [] => 0
  | TraceOp.refund n :: r => n + refundedBytes r
  | _ :: r => refundedBytes r

/-- The arguments of the completion-callback invocations, in order. -/
def callbackArgs : List TraceOp → List Position
  | [] => []
  | TraceOp.callbackOp p :: r => p :: callbackArgs r
  | _ :: r => callbackArgs r

/-- The resolved timestamps published to the sink, in order. -/
def publishedRts : List TraceOp → List ResolvedTs
  | [] => []
  | TraceOp.updateRts rts :: r => rts :: publishedRts r
  | _ :: r => publishedRts r

/-- Sum of the approximate sizes of a list of events. -/
def sumSizes (evs : List PolymorphicEvent) : Nat :=
  (evs.map PolymorphicEvent.size).sum

/-- The position of the last consumed pair whose position the engine
marks valid, or the default when none is valid (how `lastPos` evolves at
worker_impl.go lines 48 and 73-74). -/
def lastValidOr (env : Env) (ps : List (PolymorphicEvent × Position))
    (dflt : Position) : Position :=
  ps.foldl (fun acc it => if env.valid it.2 then it.2 else acc) dflt

/-- Recognizer for the callback trace entry. -/
def isCallbackOp : TraceOp → Bool
  | TraceOp.callbackOp _ => true
  | _ => false

/-- Recognizer for the cursor-close trace entry. -/
def isCloseOp : TraceOp → Bool
  | TraceOp.iterClose => true
  | _ => false

/-- Trace entries produced inside the fetch loop; the epilogue entries
(refund, callback, cursor close) never appear there. -/
def loopOp : TraceOp → Bool
  | TraceOp.refund _ => false
  | TraceOp.callbackOp _ => false
  | TraceOp.iterClose => false
  | _ => true

/-- A benign environment for concrete executions: a position marks a
transaction boundary when its commit timestamp is nonzero, the sink
never rejects anything, and the quota never reports exceedance. -/
def exEnv : Env :=
  { valid := fun p => p.commitTs != 0
    verifyErr := fun _ => false
    updateErr := fun _ => false
    isExceed := fun _ => true }

/-- `exEnv` with the quota never reporting exceedance. -/
def calmEnv : Env := { exEnv with isExceed := fun _ => false }

/-- A plain configuration: transaction splitting off. -/
def exCfg : WorkerCfg := ⟨false, 10, 1024, by decide⟩

/-- A task whose cursor yields nothing, with a nonzero lower bound. -/
def exEmptyTask : TaskInput :=
  { lowerBound := ⟨3, 4⟩
    barrierTs := 100
    items := []
    endsWithFetchError := false
    closeFails := false }

/-- A task with a single one-event transaction of 10 bytes. -/
def exOneTask : TaskInput :=
  { lowerBound := ⟨0, 0⟩
    barrierTs := 100
    items := [(⟨5, 10⟩, ⟨5, 4⟩)]
    endsWithFetchError := false
    closeFails := false }

/-- Transaction splitting on with batch size 2. -/
def c3Cfg : WorkerCfg := ⟨true, 2, 1024, by decide⟩

/-- A task with a single five-event transaction at commit timestamp 5,
boundary on the last event. -/
def c3Task : TaskInput :=
  { lowerBound := ⟨0, 0⟩
    barrierTs := 100
    items := [(⟨5, 10⟩, ⟨0, 0⟩), (⟨5, 10⟩, ⟨0, 0⟩), (⟨5, 10⟩, ⟨0, 0⟩),
              (⟨5, 10⟩, ⟨0, 0⟩), (⟨5, 10⟩, ⟨5, 4⟩)]
    endsWithFetchError := false
    closeFails := false }

/-- Transaction splitting on with batch size 0 and a grant unit large
enough to cover a flush-interval-sized event. -/
def c1Cfg : WorkerCfg := ⟨true, 0, 2 ^ 29, by decide⟩

/-- A task with one two-event transaction at commit timestamp 5 whose
first event alone reaches `maxUpdateIntervalSize`. -/
def c1Task : TaskInput :=
  { lowerBound := ⟨0, 0⟩
    barrierTs := 100
    items := [(⟨5, 268435456⟩, ⟨0, 0⟩), (⟨5, 10⟩, ⟨5, 4⟩)]
    endsWithFetchError := false
    closeFails := false }

/-- A task with two one-event transactions, used to exercise the
quota-exceedance early stop between them. -/
def c4Task : TaskInput :=
  { lowerBound := ⟨0, 0⟩
    barrierTs := 100
    items := [(⟨5, 10⟩, ⟨5, 4⟩), (⟨7, 10⟩, ⟨7, 6⟩)]
    endsWithFetchError := false
    closeFails := false }

/-- The resolved timestamp `updateTableSinkResolvedTs` builds from state
`st` for commit timestamp `c` (worker_impl.go lines 149-153). -/
def updRtsVal (cfg : WorkerCfg) (st : RunState) (c : Nat) : ResolvedTs :=
  if cfg.splitTxn then ⟨c, true, st.batchID⟩ else newResolvedTs c

/-- A state is flushed when every event consumed so far is either already
emitted to the sink or still sitting in the pending batch, in order. -/
def Flushed (st : RunState) : Prop :=
  consumedEvents st.trace = emittedEvents st.trace ++ st.events

/-- Publish safety of a trace: at every resolved-timestamp publish, every
event consumed so far has already been emitted to the sink (the pending
batch was flushed), and every event consumed afterwards has a commit
timestamp at least the published one. -/
def PubSafe (l : List TraceOp) : Prop :=
  ∀ pre rts post, l = pre ++ TraceOp.updateRts rts :: post →
    consumedEvents pre = emittedEvents pre
      ∧ ∀ e p, TraceOp.consume e p ∈ post → rts.ts ≤ e.crts

/-- State carried by a loop outcome. -/
def LoopResult.state : LoopResult → RunState
  | .done st => st
  | .stopped st => st
  | .failed st _ => st

/-! Basic distribution lemmas for the trace measurements. -/

@[simp]
theorem consumedPairs_append (l1 l2 : List TraceOp) :
    consumedPairs (l1 ++ l2) = consumedPairs l1 ++ consumedPairs l2 := by
  induction l1 with
  | nil => rfl
  | cons op r ih => cases op <;> simp [consumedPairs, ih]

@[simp]
theorem emittedEvents_append (l1 l2 : List TraceOp) :
    emittedEvents (l1 ++ l2) = emittedEvents l1 ++ emittedEvents l2 := by
  induction l1 with
  | nil => rfl
  | cons op r ih => cases op <;> simp [emittedEvents, ih]

@[simp]
theorem emitCalls_append (l1 l2 : List TraceOp) :
    emitCalls (l1 ++ l2) = emitCalls l1 + emitCalls l2 := by
  induction l1 with
  | nil => simp [emitCalls]
  | cons op r ih => cases op <;> simp [emitCalls, ih] <;> omega

@[simp]
theorem forceAcquiredBytes_append (l1 l2 : List TraceOp) :
    forceAcquiredBytes (l1 ++ l2) = forceAcquiredBytes l1 + forceAcquiredBytes l2 := by
  induction l1 with
  | nil => simp [forceAcquiredBytes]
  | cons op r ih => cases op <;> simp [forceAcquiredBytes, ih] <;> omega

@[simp]
theorem recordedBytes_append (l1 l2 : List TraceOp) :
    recordedBytes (l1 ++ l2) = recordedBytes l1 + recordedBytes l2 := by
  induction l1 with
  | nil => simp [recordedBytes]
  | cons op r ih => cases op <;> simp [recordedBytes, ih] <;> omega

@[simp]
theorem refundedBytes_append (l1 l2 : List TraceOp) :
    refundedBytes (l1 ++ l2) = refundedBytes l1 + refundedBytes l2 := by
  induction l1 with
  | nil => simp [refundedBytes]
  | cons op r ih => cases op <;> simp [refundedBytes, ih] <;> omega

@[simp]
theorem callbackArgs_append (l1 l2 : List TraceOp) :
    callbackArgs (l1 ++ l2) = callbackArgs l1 ++ callbackArgs l2 := by
  induction l1 with
  | nil => rfl
  | cons op r ih => cases op <;> simp [callbackArgs, ih]

@[simp]
theorem publishedRts_append (l1 l2 : List TraceOp) :
    publishedRts (l1 ++ l2) = publishedRts l1 ++ publishedRts l2 := by
  induction l1 with
  | nil => rfl
  | cons op r ih => cases op <;> simp [publishedRts, ih]

@[simp]
theorem consumedPairs_replicate_force (k n : Nat) :
    consumedPairs (List.replicate k (TraceOp.forceAcquire n)) = [] := by
  induction k with
  | zero => rfl
  | succ k ih => simp [List.replicate, consumedPairs, ih]

@[simp]
theorem emittedEvents_replicate_force (k n : Nat) :
    emittedEvents (List.replicate k (TraceOp.forceAcquire n)) = [] := by
  induction k with
  | zero => rfl
  | succ k ih => simp [List.replicate, emittedEvents, ih]

@[simp]
theorem emitCalls_replicate_force (k n : Nat) :
    emitCalls (List.replicate k (TraceOp.forceAcquire n)) = 0 := by
  induction k with
  | zero => rfl
  | succ k ih => simp [List.replicate, emitCalls, ih]

@[simp]
theorem forceAcquiredBytes_replicate (k n : Nat) :
    forceAcquiredBytes (List.replicate k (TraceOp.forceAcquire n)) = k * n := by
  induction k with
  | zero => simp [forceAcquiredBytes]
  | succ k ih => simp [List.replicate, forceAcquiredBytes, ih]; ring

@[simp]
theorem callbackArgs_replicate_force (k n : Nat) :
    callbackArgs (List.replicate k (TraceOp.forceAcquire n)) = [] := by
  induction k with
  | zero => rfl
  | succ k ih => simp [List.replicate, callbackArgs, ih]

@[simp]
theorem publishedRts_replicate_force (k n : Nat) :
    publishedRts (List.replicate k (TraceOp.forceAcquire n)) = [] := by
  induction k with
  | zero => rfl
  | succ k ih => simp [List.replicate, publishedRts, ih]

@[simp]
theorem refundedBytes_replicate_force (k n : Nat) :
    refundedBytes (List.replicate k (TraceOp.forceAcquire n)) = 0 := by
  induction k with
  | zero => rfl
  | succ k ih => simp [List.replicate, refundedBytes, ih]

theorem consumedPairs_eq_nil_iff (l : List TraceOp) :
    consumedPairs l = [] ↔ ∀ e p, TraceOp.consume e p ∉ l := by
  induction l with
  | nil => simp [consumedPairs]
  | cons op r ih =>
    cases op with
    | consume e p =>
      simp only [consumedPairs]
      constructor
      · intro h; exact absurd h (List.cons_ne_nil _ _)
      · intro h; exact absurd (List.mem_cons_self _ _) (h e p)
    | _ => simp [consumedPairs, ih]

theorem publishedRts_eq_nil_iff (l : List TraceOp) :
    publishedRts l = [] ↔ ∀ rts, TraceOp.updateRts rts ∉ l := by
  induction l with
  | nil => simp [publishedRts]
  | cons op r ih =>
    cases op with
    | updateRts rts =>
      simp only [publishedRts]
      constructor
      · intro h; exact absurd h (List.cons_ne_nil _ _)
      · intro h; exact absurd (List.mem_cons_self _ _) (h rts)
    | _ => simp [publishedRts, ih]

theorem callbackArgs_eq_nil_of_loopOps (l : List TraceOp)
    (h : ∀ op ∈ l, loopOp op = true) : callbackArgs l = [] := by
  induction l with
  | nil => rfl
  | cons op r ih =>
    have hop := h op (by simp)
    have hr : ∀ op ∈ r, loopOp op = true := fun o ho => h o (by simp [ho])
    cases op <;> simp_all [callbackArgs, loopOp]

theorem refundedBytes_eq_zero_of_loopOps (l : List TraceOp)
    (h : ∀ op ∈ l, loopOp op = true) : refundedBytes l = 0 := by
  induction l with
  | nil => rfl
  | cons op r ih =>
    have hop := h op (by simp)
    have hr : ∀ op ∈ r, loopOp op = true := fun o ho => h o (by simp [ho])
    cases op <;> simp_all [refundedBytes, loopOp]

theorem mem_consumedEvents_of_consume_mem {l : List TraceOp}
    {e : PolymorphicEvent} {p : Position} (h : TraceOp.consume e p ∈ l) :
    e ∈ consumedEvents l := by
  induction l with
  | nil => simp at h
  | cons op r ih =>
    rcases List.mem_cons.mp h with h1 | h2
    · subst h1; simp [consumedEvents, consumedPairs]
    · have hr := ih h2
      cases op <;> simp [consumedEvents, consumedPairs] at hr ⊢ <;> tauto

theorem lastValidOr_append (env : Env)
    (l1 l2 : List (PolymorphicEvent × Position)) (d : Position) :
    lastValidOr env (l1 ++ l2) d = lastValidOr env l2 (lastValidOr env l1 d) := by
  simp [lastValidOr, List.foldl_append]

/-! Characterisation of the force-acquire loop. -/

theorem acquireAvailableMem_spec (cfg : WorkerCfg) (availableMem size : Nat) :
    (acquireAvailableMem cfg availableMem size).1
        = availableMem
          + (acquireAvailableMem cfg availableMem size).2 * cfg.defaultMemoryUsage
      ∧ size ≤ (acquireAvailableMem cfg availableMem size).1
      ∧ ∀ j < (acquireAvailableMem cfg availableMem size).2,
          availableMem + j * cfg.defaultMemoryUsage < size := by
  induction availableMem, size using acquireAvailableMem.induct cfg with
  | case1 availableMem size hlt ih =>
    rw [acquireAvailableMem, if_pos hlt]
    simp only [] at ih ⊢
    obtain ⟨ih1, ih2, ih3⟩ := ih
    refine ⟨?_, by omega, ?_⟩
    · rw [Nat.succ_mul]; omega
    · intro j hj
      cases j with
      | zero => simpa using hlt
      | succ j =>
        have h3 := ih3 j (by omega)
        have he : availableMem + cfg.defaultMemoryUsage + j * cfg.defaultMemoryUsage
            = availableMem + (j + 1) * cfg.defaultMemoryUsage := by ring
        omega
  | case2 availableMem size hge =>
    rw [acquireAvailableMem, if_neg hge]
    simp only []
    exact ⟨by omega, by omega, fun j hj => absurd hj (by omega)⟩

/-! Structural facts about the step functions of the fetch loop.  Each
lemma records how a step extends the trace and which state fields it
leaves untouched; they are the backbone of the per-claim proofs. -/

@[simp]
theorem updRtsVal_ts (cfg : WorkerCfg) (st : RunState) (c : Nat) :
    (updRtsVal cfg st c).ts = c := by
  by_cases h : cfg.splitTxn <;> simp [updRtsVal, newResolvedTs, h]

theorem updateTableSinkResolvedTs_eq (cfg : WorkerCfg) (env : Env)
    (st : RunState) (c sz : Nat) :
    updateTableSinkResolvedTs cfg env st c sz
      = ({ st with
            batchID := if cfg.splitTxn then st.batchID + 1 else st.batchID,
            updateCalls := st.updateCalls + 1,
            trace := st.trace
              ++ [TraceOp.record (updRtsVal cfg st c) sz,
                  TraceOp.updateRts (updRtsVal cfg st c)] },
          env.updateErr st.updateCalls) := by
  by_cases h : cfg.splitTxn <;> simp [updateTableSinkResolvedTs, updRtsVal, h]

theorem advanceIfBig_eq (cfg : WorkerCfg) (env : Env) (st : RunState) (c : Nat) :
    (maxUpdateIntervalSize ≤ st.lastTotalSize
        ∧ advanceIfBig cfg env st c
          = (let r := updateTableSinkResolvedTs cfg env st c st.lastTotalSize
             (if r.2 then r.1 else { r.1 with lastTotalSize := 0 }, r.2)))
      ∨ (st.lastTotalSize < maxUpdateIntervalSize
          ∧ advanceIfBig cfg env st c = (st, false)) := by
  by_cases h : maxUpdateIntervalSize ≤ st.lastTotalSize
  · exact Or.inl ⟨h, by simp [advanceIfBig, h]⟩
  · exact Or.inr ⟨by omega, by simp [advanceIfBig, h]⟩

/-- How `advanceIfBig` extends the trace: nothing, or one `Record` and
one publish of a resolved timestamp carrying commit timestamp `c`; all
fields other than `lastTotalSize`, `batchID`, `updateCalls` and the
trace are untouched. -/
theorem advanceIfBig_spec (cfg : WorkerCfg) (env : Env) (st : RunState) (c : Nat) :
    ∃ tail,
      (advanceIfBig cfg env st c).1.trace = st.trace ++ tail
        ∧ consumedPairs tail = []
        ∧ emittedEvents tail = []
        ∧ emitCalls tail = 0
        ∧ forceAcquiredBytes tail = 0
        ∧ (∀ op ∈ tail, loopOp op = true)
        ∧ (∀ rts ∈ publishedRts tail, rts.ts = c)
        ∧ (advanceIfBig cfg env st c).1.availableMem = st.availableMem
        ∧ (advanceIfBig cfg env st c).1.events = st.events
        ∧ (advanceIfBig cfg env st c).1.lastPos = st.lastPos
        ∧ (advanceIfBig cfg env st c).1.batchCount = st.batchCount
        ∧ (advanceIfBig cfg env st c).1.exceedCalls = st.exceedCalls := by
  rcases advanceIfBig_eq cfg env st c with ⟨hge, heq⟩ | ⟨hlt, heq⟩
  · rw [heq, updateTableSinkResolvedTs_eq]
    by_cases hb : env.updateErr st.updateCalls
      <;> refine ⟨[TraceOp.record (updRtsVal cfg st c) st.lastTotalSize,
            TraceOp.updateRts (updRtsVal cfg st c)], ?_⟩
      <;> simp [hb, consumedPairs, emittedEvents, emitCalls, forceAcquiredBytes,
            publishedRts, loopOp]
  · rw [heq]
    exact ⟨[], by simp [consumedPairs, emittedEvents, emitCalls,
      forceAcquiredBytes, publishedRts]⟩

/-- How the mid-transaction flush block extends the trace and which
fields it preserves, over all its outcomes. -/
theorem splitStep_spec (cfg : WorkerCfg) (env : Env) (e : PolymorphicEvent)
    (st : RunState) :
    ∃ tail,
      (splitStep cfg env e st).state.trace = st.trace ++ tail
        ∧ consumedPairs tail = []
        ∧ forceAcquiredBytes tail = 0
        ∧ (∀ op ∈ tail, loopOp op = true)
        ∧ (∀ rts ∈ publishedRts tail, rts.ts = e.crts)
        ∧ (splitStep cfg env e st).state.availableMem = st.availableMem
        ∧ (splitStep cfg env e st).state.lastPos = st.lastPos
        ∧ (splitStep cfg env e st).state.batchCount = st.batchCount := by
  by_cases hc : (cfg.splitTxn && decide (cfg.batchSize ≤ st.batchCount)) = true
  · cases hem : emitEventsToTableSink env st.events with
    | none =>
      refine ⟨[], ?_⟩
      simp [splitStep, hc, hem, StepResult.state, consumedPairs,
        forceAcquiredBytes, publishedRts]
    | some size =>
      obtain ⟨tail2, ht2, hcp2, hev2, hec2, hfa2, hlo2, hpu2, ham2, hevs2,
          hlp2, hbc2, hxc2⟩ :=
        advanceIfBig_spec cfg env
          { st with trace := st.trace ++ [TraceOp.emit st.events],
                    lastTotalSize := st.lastTotalSize + size } e.crts
      cases hA : advanceIfBig cfg env
          { st with trace := st.trace ++ [TraceOp.emit st.events],
                    lastTotalSize := st.lastTotalSize + size } e.crts with
      | mk A1 bad =>
        rw [hA] at ht2 ham2 hevs2 hlp2 hbc2 hxc2
        simp only [] at ht2 ham2 hlp2 hbc2
        have hred : splitStep cfg env e st
            = (if bad = true then StepResult.fail A1 RunError.updateFail
               else StepResult.next { A1 with events := [] }) := by
          simp [splitStep, hc, hem, hA]
        refine ⟨TraceOp.emit st.events :: tail2, ?_, ?_, ?_, ?_, ?_, ?_, ?_, ?_⟩ <;>
            (try rw [hred]) <;> (try cases bad) <;>
            simp_all [StepResult.state, consumedPairs, forceAcquiredBytes,
              loopOp, publishedRts]
  · refine ⟨[], ?_⟩
    simp [splitStep, hc, StepResult.state, consumedPairs, forceAcquiredBytes,
      publishedRts]

/-- How the boundary flush-advance-check block extends the trace and
which fields it preserves, over all its outcomes. -/
theorem boundaryFlush_spec (cfg : WorkerCfg) (env : Env) (e : PolymorphicEvent)
    (st : RunState) :
    ∃ tail,
      (boundaryFlush cfg env e st).state.trace = st.trace ++ tail
        ∧ consumedPairs tail = []
        ∧ forceAcquiredBytes tail = 0
        ∧ (∀ op ∈ tail, loopOp op = true)
        ∧ (∀ rts ∈ publishedRts tail, rts.ts = e.crts)
        ∧ (boundaryFlush cfg env e st).state.availableMem = st.availableMem
        ∧ (boundaryFlush cfg env e st).state.lastPos = st.lastPos
        ∧ (boundaryFlush cfg env e st).state.batchCount = st.batchCount := by
  cases hem : emitEventsToTableSink env st.events with
  | none =>
    refine ⟨[], ?_⟩
    simp [boundaryFlush, hem, StepResult.state, consumedPairs,
      forceAcquiredBytes, publishedRts]
  | some size =>
    obtain ⟨tail2, ht2, hcp2, hev2, hec2, hfa2, hlo2, hpu2, ham2, hevs2,
        hlp2, hbc2, hxc2⟩ :=
      advanceIfBig_spec cfg env
        { st with trace := st.trace ++ [TraceOp.emit st.events],
                  lastTotalSize := st.lastTotalSize + size, events := [] } e.crts
    cases hA : advanceIfBig cfg env
        { st with trace := st.trace ++ [TraceOp.emit st.events],
                  lastTotalSize := st.lastTotalSize + size, events := [] } e.crts with
    | mk A1 bad =>
      rw [hA] at ht2 ham2 hevs2 hlp2 hbc2 hxc2
      simp only [] at ht2 ham2 hlp2 hbc2
      cases bad with
      | true =>
        have hred : boundaryFlush cfg env e st = StepResult.fail A1 RunError.updateFail := by
          simp [boundaryFlush, hem, hA]
        refine ⟨TraceOp.emit st.events :: tail2, ?_, ?_, ?_, ?_, ?_, ?_, ?_, ?_⟩ <;>
            simp_all [hred, StepResult.state, consumedPairs, forceAcquiredBytes,
              loopOp, publishedRts]
      | false =>
        cases hans : env.isExceed A1.exceedCalls with
        | false =>
          obtain ⟨tail3, ht3, hcp3, hfa3, hlo3, hpu3, ham3, hlp3, hbc3⟩ :=
            splitStep_spec cfg env e { A1 with exceedCalls := A1.exceedCalls + 1 }
          have hred : boundaryFlush cfg env e st
              = splitStep cfg env e { A1 with exceedCalls := A1.exceedCalls + 1 } := by
            simp [boundaryFlush, hem, hA, hans]
          refine ⟨TraceOp.emit st.events :: (tail2 ++ tail3), ?_, ?_, ?_, ?_, ?_,
              ?_, ?_, ?_⟩ <;>
              simp_all [hred, StepResult.state, consumedPairs, forceAcquiredBytes,
                loopOp, publishedRts]
          · intro op hop
            rcases hop with h | h
            · exact hlo2 op h
            · exact hlo3 op h
          · intro rts hrts
            rcases hrts with h | h
            · exact hpu2 rts h
            · exact hpu3 rts h
        | true =>
          cases hU : updateTableSinkResolvedTs cfg env
              { A1 with exceedCalls := A1.exceedCalls + 1 } e.crts A1.lastTotalSize with
          | mk B1 bad2 =>
            have hUspec := updateTableSinkResolvedTs_eq cfg env
              { A1 with exceedCalls := A1.exceedCalls + 1 } e.crts A1.lastTotalSize
            rw [hU] at hUspec
            have hB1 : B1 = { { A1 with exceedCalls := A1.exceedCalls + 1 } with
                batchID := if cfg.splitTxn then A1.batchID + 1 else A1.batchID,
                updateCalls := A1.updateCalls + 1,
                trace := A1.trace
                  ++ [TraceOp.record (updRtsVal cfg
                        { A1 with exceedCalls := A1.exceedCalls + 1 } e.crts)
                        A1.lastTotalSize,
                      TraceOp.updateRts (updRtsVal cfg
                        { A1 with exceedCalls := A1.exceedCalls + 1 } e.crts)] } := by
              have := congrArg Prod.fst hUspec
              simpa using this
            have hred : boundaryFlush cfg env e st
                = (if bad2 = true then StepResult.fail B1 RunError.updateFail
                   else StepResult.brk { B1 with lastTotalSize := 0 }) := by
              simp [boundaryFlush, hem, hA, hans, hU]
            refine ⟨TraceOp.emit st.events :: (tail2
                ++ [TraceOp.record (updRtsVal cfg
                      { A1 with exceedCalls := A1.exceedCalls + 1 } e.crts)
                      A1.lastTotalSize,
                    TraceOp.updateRts (updRtsVal cfg
                      { A1 with exceedCalls := A1.exceedCalls + 1 } e.crts)]),
                ?_, ?_, ?_, ?_, ?_, ?_, ?_, ?_⟩ <;>
                (try cases bad2) <;>
                simp_all [hred, hB1, StepResult.state, consumedPairs,
                  forceAcquiredBytes, loopOp, publishedRts]
            all_goals
              intro x hx
              rcases hx with h | h
              · first
                | exact hlo2 x h
                | exact hpu2 x h
              · first
                | (rcases h with h | h <;> simp [h, loopOp])
                | simp [h]

/-- How the transaction-boundary handling extends the trace; its
outcome carries the boundary position as `lastPos`. -/
theorem boundaryStep_spec (cfg : WorkerCfg) (env : Env) (e : PolymorphicEvent)
    (pos : Position) (st : RunState) :
    ∃ tail,
      (boundaryStep cfg env e pos st).state.trace = st.trace ++ tail
        ∧ consumedPairs tail = []
        ∧ forceAcquiredBytes tail = 0
        ∧ (∀ op ∈ tail, loopOp op = true)
        ∧ (∀ rts ∈ publishedRts tail, rts.ts = e.crts)
        ∧ (boundaryStep cfg env e pos st).state.availableMem = st.availableMem
        ∧ (boundaryStep cfg env e pos st).state.lastPos = pos
        ∧ (boundaryStep cfg env e pos st).state.batchCount = st.batchCount := by
  by_cases hsp : cfg.splitTxn = true
  · obtain ⟨tail2, ht2, hcp2, hfa2, hlo2, hpu2, ham2, hlp2, hbc2⟩ :=
      boundaryFlush_spec cfg env e
        { st with lastPos := pos, batchID := 1,
                  trace := st.trace ++ [TraceOp.resetBatch] }
    have hred : boundaryStep cfg env e pos st
        = boundaryFlush cfg env e
            { st with lastPos := pos, batchID := 1,
                      trace := st.trace ++ [TraceOp.resetBatch] } := by
      simp [boundaryStep, hsp]
    refine ⟨TraceOp.resetBatch :: tail2, ?_, ?_, ?_, ?_, ?_, ?_, ?_, ?_⟩ <;>
        simp_all [consumedPairs, forceAcquiredBytes, publishedRts, loopOp]
  · obtain ⟨tail2, ht2, hcp2, hfa2, hlo2, hpu2, ham2, hlp2, hbc2⟩ :=
      boundaryFlush_spec cfg env e { st with lastPos := pos }
    have hred : boundaryStep cfg env e pos st
        = boundaryFlush cfg env e { st with lastPos := pos } := by
      simp [boundaryStep, hsp]
    exact ⟨tail2, by simp_all⟩

/-- The master structural lemma for one iteration of the fetch loop: the
trace grows by the force-acquires, the consumption of the event, and
loop-internal entries only; the allowance accounting is exact; `lastPos`
is updated exactly on valid positions; `batchCount` never changes. -/
theorem processItem_spec (cfg : WorkerCfg) (env : Env) (e : PolymorphicEvent)
    (pos : Position) (st : RunState) :
    ∃ k tail,
      (processItem cfg env e pos st).state.trace
          = st.trace
            ++ List.replicate k (TraceOp.forceAcquire cfg.defaultMemoryUsage)
            ++ TraceOp.consume e pos :: tail
        ∧ consumedPairs tail = []
        ∧ forceAcquiredBytes tail = 0
        ∧ (∀ op ∈ tail, loopOp op = true)
        ∧ (∀ rts ∈ publishedRts tail, rts.ts = e.crts)
        ∧ (processItem cfg env e pos st).state.availableMem + e.size
            = st.availableMem + k * cfg.defaultMemoryUsage
        ∧ e.size ≤ st.availableMem + k * cfg.defaultMemoryUsage
        ∧ (∀ j < k, st.availableMem + j * cfg.defaultMemoryUsage < e.size)
        ∧ (processItem cfg env e pos st).state.lastPos
            = (if env.valid pos then pos else st.lastPos)
        ∧ (processItem cfg env e pos st).state.batchCount = st.batchCount := by
  obtain ⟨hacq1, hacq2, hacq3⟩ := acquireAvailableMem_spec cfg st.availableMem e.size
  cases hacq : acquireAvailableMem cfg st.availableMem e.size with
  | mk newAvail k =>
    rw [hacq] at hacq1 hacq2 hacq3
    simp only [] at hacq1 hacq2 hacq3
    cases hv : env.valid pos with
    | true =>
      obtain ⟨tail2, ht2, hcp2, hfa2, hlo2, hpu2, ham2, hlp2, hbc2⟩ :=
        boundaryStep_spec cfg env e pos
          { st with
              availableMem := newAvail - e.size,
              events := st.events ++ [e],
              trace := st.trace
                ++ List.replicate k (TraceOp.forceAcquire cfg.defaultMemoryUsage)
                ++ [TraceOp.consume e pos] }
      have hred : processItem cfg env e pos st
          = boundaryStep cfg env e pos
              { st with
                  availableMem := newAvail - e.size,
                  events := st.events ++ [e],
                  trace := st.trace
                    ++ List.replicate k (TraceOp.forceAcquire cfg.defaultMemoryUsage)
                    ++ [TraceOp.consume e pos] } := by
        simp [processItem, hacq, hv]
      refine ⟨k, tail2, ?_, hcp2, hfa2, hlo2, hpu2, ?_, ?_, hacq3, ?_, ?_⟩ <;>
          simp_all <;> omega
    | false =>
      obtain ⟨tail2, ht2, hcp2, hfa2, hlo2, hpu2, ham2, hlp2, hbc2⟩ :=
        splitStep_spec cfg env e
          { st with
              availableMem := newAvail - e.size,
              events := st.events ++ [e],
              trace := st.trace
                ++ List.replicate k (TraceOp.forceAcquire cfg.defaultMemoryUsage)
                ++ [TraceOp.consume e pos] }
      have hred : processItem cfg env e pos st
          = splitStep cfg env e
              { st with
                  availableMem := newAvail - e.size,
                  events := st.events ++ [e],
                  trace := st.trace
                    ++ List.replicate k (TraceOp.forceAcquire cfg.defaultMemoryUsage)
                    ++ [TraceOp.consume e pos] } := by
        simp [processItem, hacq, hv]
      refine ⟨k, tail2, ?_, hcp2, hfa2, hlo2, hpu2, ?_, ?_, hacq3, ?_, ?_⟩ <;>
          simp_all <;> omega

@[simp]
theorem lastValidOr_single (env : Env) (e : PolymorphicEvent) (pos : Position)
    (d : Position) :
    lastValidOr env [(e, pos)] d = if env.valid pos then pos else d := rfl

/-- The fetch loop only appends loop-internal trace entries, keeps
`lastPos` tracking the last consumed valid position, keeps the exact
allowance accounting, and never touches `batchCount`. -/
theorem runLoop_spec (cfg : WorkerCfg) (env : Env)
    (items : List (PolymorphicEvent × Position)) (st : RunState) :
    ∃ tr,
      (runLoop cfg env items st).state.trace = st.trace ++ tr
        ∧ (∀ op ∈ tr, loopOp op = true)
        ∧ (runLoop cfg env items st).state.lastPos
            = lastValidOr env (consumedPairs tr) st.lastPos
        ∧ (runLoop cfg env items st).state.availableMem
              + sumSizes ((consumedPairs tr).map Prod.fst)
            = st.availableMem + forceAcquiredBytes tr
        ∧ (runLoop cfg env items st).state.batchCount = st.batchCount := by
  induction items generalizing st with
  | nil =>
    refine ⟨[], ?_⟩
    simp [runLoop, LoopResult.state, lastValidOr, consumedPairs, sumSizes,
      forceAcquiredBytes]
  | cons it rest ih =>
    cases it with
    | mk e pos =>
      obtain ⟨k, tail, ht1, hcp1, hfa1, hlo1, _, ham1, _, _, hlp1, hbc1⟩ :=
        processItem_spec cfg env e pos st
      cases hres : processItem cfg env e pos st with
      | next st1 =>
        rw [hres] at ht1 ham1 hlp1 hbc1
        simp only [StepResult.state] at ht1 ham1 hlp1 hbc1
        obtain ⟨tr2, ht2, hlo2, hlp2, ham2, hbc2⟩ := ih st1
        refine ⟨List.replicate k (TraceOp.forceAcquire cfg.defaultMemoryUsage)
            ++ TraceOp.consume e pos :: tail ++ tr2, ?_, ?_, ?_, ?_, ?_⟩
        · simp [runLoop, hres, ht2, ht1]
        · intro op hop
          simp only [List.append_assoc, List.mem_append, List.mem_cons] at hop
          have hop2 : op ∈ List.replicate k
                (TraceOp.forceAcquire cfg.defaultMemoryUsage)
              ∨ op = TraceOp.consume e pos ∨ op ∈ tail ∨ op ∈ tr2 := by tauto
          rcases hop2 with h | h | h | h
          · rcases List.eq_of_mem_replicate h with rfl; rfl
          · subst h; rfl
          · exact hlo1 op h
          · exact hlo2 op h
        · have hcPairs : consumedPairs
              (List.replicate k (TraceOp.forceAcquire cfg.defaultMemoryUsage)
                ++ TraceOp.consume e pos :: tail ++ tr2)
              = (e, pos) :: consumedPairs tr2 := by
            simp [consumedPairs, hcp1]
          simp only [runLoop, hres, hcPairs]
          rw [hlp2, hlp1]
          have : lastValidOr env ((e, pos) :: consumedPairs tr2) st.lastPos
              = lastValidOr env (consumedPairs tr2)
                  (if env.valid pos then pos else st.lastPos) := by
            have := lastValidOr_append env [(e, pos)] (consumedPairs tr2) st.lastPos
            simpa using this
          rw [this]
        · have hcPairs : consumedPairs
              (List.replicate k (TraceOp.forceAcquire cfg.defaultMemoryUsage)
                ++ TraceOp.consume e pos :: tail ++ tr2)
              = (e, pos) :: consumedPairs tr2 := by
            simp [consumedPairs, hcp1]
          simp only [runLoop, hres, hcPairs]
          have hsum : sumSizes (((e, pos) :: consumedPairs tr2).map Prod.fst)
              = e.size + sumSizes ((consumedPairs tr2).map Prod.fst) := by
            simp [sumSizes]
          have hfb : forceAcquiredBytes
              (List.replicate k (TraceOp.forceAcquire cfg.defaultMemoryUsage)
                ++ TraceOp.consume e pos :: tail ++ tr2)
              = k * cfg.defaultMemoryUsage + forceAcquiredBytes tr2 := by
            simp [forceAcquiredBytes, hfa1]
          rw [hsum, hfb]
          omega
        · simpa [runLoop, hres, hbc1] using hbc2
      | brk st1 =>
        rw [hres] at ht1 ham1 hlp1 hbc1
        simp only [StepResult.state] at ht1 ham1 hlp1 hbc1
        refine ⟨List.replicate k (TraceOp.forceAcquire cfg.defaultMemoryUsage)
            ++ TraceOp.consume e pos :: tail, ?_, ?_, ?_, ?_, ?_⟩
        · simp [runLoop, hres, LoopResult.state, ht1]
        · intro op hop
          simp only [List.mem_append, List.mem_cons] at hop
          have hop2 : op ∈ List.replicate k
                (TraceOp.forceAcquire cfg.defaultMemoryUsage)
              ∨ op = TraceOp.consume e pos ∨ op ∈ tail := by tauto
          rcases hop2 with h | h | h
          · rcases List.eq_of_mem_replicate h with rfl; rfl
          · subst h; rfl
          · exact hlo1 op h
        · simp [runLoop, hres, LoopResult.state, hlp1, consumedPairs, hcp1]
        · simp only [runLoop, hres, LoopResult.state]
          have hcPairs : consumedPairs
              (List.replicate k (TraceOp.forceAcquire cfg.defaultMemoryUsage)
                ++ TraceOp.consume e pos :: tail)
              = [(e, pos)] := by
            simp [consumedPairs, hcp1]
          rw [hcPairs]
          have hfb : forceAcquiredBytes
              (List.replicate k (TraceOp.forceAcquire cfg.defaultMemoryUsage)
                ++ TraceOp.consume e pos :: tail)
              = k * cfg.defaultMemoryUsage := by
            simp [forceAcquiredBytes, hfa1]
          rw [hfb]
          simp [sumSizes]
          omega
        · simp [runLoop, hres, LoopResult.state, hbc1]
      | fail st1 er =>
        rw [hres] at ht1 ham1 hlp1 hbc1
        simp only [StepResult.state] at ht1 ham1 hlp1 hbc1
        refine ⟨List.replicate k (TraceOp.forceAcquire cfg.defaultMemoryUsage)
            ++ TraceOp.consume e pos :: tail, ?_, ?_, ?_, ?_, ?_⟩
        · simp [runLoop, hres, LoopResult.state, ht1]
        · intro op hop
          simp only [List.mem_append, List.mem_cons] at hop
          have hop2 : op ∈ List.replicate k
                (TraceOp.forceAcquire cfg.defaultMemoryUsage)
              ∨ op = TraceOp.consume e pos ∨ op ∈ tail := by tauto
          rcases hop2 with h | h | h
          · rcases List.eq_of_mem_replicate h with rfl; rfl
          · subst h; rfl
          · exact hlo1 op h
        · simp [runLoop, hres, LoopResult.state, hlp1, consumedPairs, hcp1]
        · simp only [runLoop, hres, LoopResult.state]
          have hcPairs : consumedPairs
              (List.replicate k (TraceOp.forceAcquire cfg.defaultMemoryUsage)
                ++ TraceOp.consume e pos :: tail)
              = [(e, pos)] := by
            simp [consumedPairs, hcp1]
          rw [hcPairs]
          have hfb : forceAcquiredBytes
              (List.replicate k (TraceOp.forceAcquire cfg.defaultMemoryUsage)
                ++ TraceOp.consume e pos :: tail)
              = k * cfg.defaultMemoryUsage := by
            simp [forceAcquiredBytes, hfa1]
          rw [hfb]
          simp [sumSizes]
          omega
        · simp [runLoop, hres, LoopResult.state, hbc1]

/-- The mid-transaction flush block only aborts with verification or
publish errors. -/
theorem splitStep_fail_kind (cfg : WorkerCfg) (env : Env) (e : PolymorphicEvent)
    (st st1 : RunState) (er : RunError)
    (h : splitStep cfg env e st = .fail st1 er) :
    er = RunError.verifyFail ∨ er = RunError.updateFail := by
  unfold splitStep at h
  split at h
  · cases hem : emitEventsToTableSink env st.events with
    | none =>
      rw [hem] at h
      injection h with h1 h2
      exact Or.inl h2.symm
    | some size =>
      rw [hem] at h
      dsimp only [] at h
      split at h
      · injection h with h1 h2
        exact Or.inr h2.symm
      · exact StepResult.noConfusion h
  · exact StepResult.noConfusion h

/-- The boundary flush-advance-check block only aborts with verification
or publish errors. -/
theorem boundaryFlush_fail_kind (cfg : WorkerCfg) (env : Env)
    (e : PolymorphicEvent) (st st1 : RunState) (er : RunError)
    (h : boundaryFlush cfg env e st = .fail st1 er) :
    er = RunError.verifyFail ∨ er = RunError.updateFail := by
  unfold boundaryFlush at h
  cases hem : emitEventsToTableSink env st.events with
  | none =>
    rw [hem] at h
    injection h with h1 h2
    exact Or.inl h2.symm
  | some size =>
    rw [hem] at h
    dsimp only [] at h
    split at h
    · injection h with h1 h2
      exact Or.inr h2.symm
    · split at h
      · split at h
        · injection h with h1 h2
          exact Or.inr h2.symm
        · exact StepResult.noConfusion h
      · exact splitStep_fail_kind cfg env e _ st1 er h

/-- One loop iteration only aborts with verification or publish errors. -/
theorem processItem_fail_kind (cfg : WorkerCfg) (env : Env)
    (e : PolymorphicEvent) (pos : Position) (st st1 : RunState) (er : RunError)
    (h : processItem cfg env e pos st = .fail st1 er) :
    er = RunError.verifyFail ∨ er = RunError.updateFail := by
  unfold processItem at h
  dsimp only [] at h
  split at h
  · unfold boundaryStep at h
    exact boundaryFlush_fail_kind cfg env e _ st1 er h
  · exact splitStep_fail_kind cfg env e _ st1 er h

/-- The fetch loop only aborts with verification or publish errors. -/
theorem runLoop_fail_kind (cfg : WorkerCfg) (env : Env)
    (items : List (PolymorphicEvent × Position)) (st st1 : RunState)
    (er : RunError) (h : runLoop cfg env items st = .failed st1 er) :
    er = RunError.verifyFail ∨ er = RunError.updateFail := by
  induction items generalizing st with
  | nil => exact absurd h (by simp [runLoop])
  | cons it rest ih =>
    cases it with
    | mk e pos =>
      rw [runLoop] at h
      cases hres : processItem cfg env e pos st with
      | next st2 => rw [hres] at h; exact ih st2 h
      | brk st2 => rw [hres] at h; exact absurd h (by simp)
      | fail st2 er2 =>
        rw [hres] at h
        injection h with h1 h2
        subst h2
        exact processItem_fail_kind cfg env e pos st st2 er2 hres

/-- Splitting the cursor yields splits the fetch loop. -/
theorem runLoop_append (cfg : WorkerCfg) (env : Env)
    (l1 l2 : List (PolymorphicEvent × Position)) (st : RunState) :
    runLoop cfg env (l1 ++ l2) st
      = (match runLoop cfg env l1 st with
          | .done st1 => runLoop cfg env l2 st1
          | .stopped st1 => .stopped st1
          | .failed st1 er => .failed st1 er) := by
  induction l1 generalizing st with
  | nil => simp [runLoop]
  | cons it rest ih =>
    cases it with
    | mk e pos =>
      rw [List.cons_append, runLoop, runLoop]
      cases hres : processItem cfg env e pos st with
      | next st2 => exact ih st2
      | brk st2 => rfl
      | fail st2 er => rfl

/-- Task-level aggregation: `batchCount` stays zero forever; whenever the
task reaches its epilogue the trace ends with exactly one refund, one
callback and one cursor close, in that order, with the callback argument
tracking the last consumed valid position and the refund closing the
allowance accounting; whenever the task aborts on a fetch, verification
or publish error the trace holds loop entries only (in particular no
callback and no refund). -/
theorem runTask_spec (cfg : WorkerCfg) (env : Env) (t : TaskInput) :
    (runTask cfg env t).1.batchCount = 0
      ∧ (((runTask cfg env t).2 = none
            ∨ (runTask cfg env t).2 = some RunError.closeFail) →
          ∃ pre a p,
            (runTask cfg env t).1.trace
                = pre ++ [TraceOp.refund a, TraceOp.callbackOp p,
                    TraceOp.iterClose]
              ∧ (∀ op ∈ pre, loopOp op = true)
              ∧ p = lastValidOr env (consumedPairs pre) ⟨0, 0⟩
              ∧ a + sumSizes ((consumedPairs pre).map Prod.fst)
                  = cfg.defaultMemoryUsage + forceAcquiredBytes pre)
      ∧ (∀ er, (runTask cfg env t).2 = some er → er ≠ RunError.closeFail →
          ∀ op ∈ (runTask cfg env t).1.trace, loopOp op = true) := by
  obtain ⟨tr, htr, hlo, hlp, ham, hbc⟩ :=
    runLoop_spec cfg env t.items (initState cfg)
  cases hres : runLoop cfg env t.items (initState cfg) with
  | done st =>
    rw [hres] at htr hlp ham hbc
    simp only [LoopResult.state, initState, List.nil_append] at htr hlp ham hbc
    by_cases hfe : t.endsWithFetchError = true
    · have hrt : runTask cfg env t = (st, some RunError.fetchFail) := by
        simp [runTask, hres, hfe]
      refine ⟨by simp [hrt, hbc], ?_, ?_⟩
      · intro hn
        rcases hn with hn | hn <;> simp [hrt] at hn
      · intro er _ _ op hop
        rw [hrt] at hop
        simp only [] at hop
        rw [htr] at hop
        exact hlo op hop
    · have hrt : runTask cfg env t = finishTask st t := by
        simp [runTask, hres, hfe]
      refine ⟨by simp [hrt, finishTask, hbc], ?_, ?_⟩
      · intro _
        refine ⟨st.trace, st.availableMem, st.lastPos, ?_, ?_, ?_, ?_⟩
        · simp [hrt, finishTask]
        · rw [htr]; exact hlo
        · rw [htr, hlp]
        · rw [htr]
          omega
      · intro er her hne op hop
        have : (runTask cfg env t).2 = if t.closeFails then
            some RunError.closeFail else none := by
          simp [hrt, finishTask]
        rw [her] at this
        by_cases hcf : t.closeFails = true
        · simp [hcf] at this
          exact absurd this hne
        · simp [hcf] at this
  | stopped st =>
    rw [hres] at htr hlp ham hbc
    simp only [LoopResult.state, initState, List.nil_append] at htr hlp ham hbc
    have hrt : runTask cfg env t = finishTask st t := by
      simp [runTask, hres]
    refine ⟨by simp [hrt, finishTask, hbc], ?_, ?_⟩
    · intro _
      refine ⟨st.trace, st.availableMem, st.lastPos, ?_, ?_, ?_, ?_⟩
      · simp [hrt, finishTask]
      · rw [htr]; exact hlo
      · rw [htr, hlp]
      · rw [htr]
        omega
    · intro er her hne op hop
      have : (runTask cfg env t).2 = if t.closeFails then
          some RunError.closeFail else none := by
        simp [hrt, finishTask]
      rw [her] at this
      by_cases hcf : t.closeFails = true
      · simp [hcf] at this
        exact absurd this hne
      · simp [hcf] at this
  | failed st er2 =>
    rw [hres] at htr hlp ham hbc
    simp only [LoopResult.state, initState, List.nil_append] at htr hlp ham hbc
    have hrt : runTask cfg env t = (st, some er2) := by
      simp [runTask, hres]
    have hkind := runLoop_fail_kind cfg env t.items (initState cfg) st er2 hres
    refine ⟨by simp [hrt, hbc], ?_, ?_⟩
    · intro hn
      rcases hn with hn | hn <;> rw [hrt] at hn <;> simp at hn
      rcases hkind with hk | hk <;> simp [hn] at hk
    · intro er her hne op hop
      rw [hrt] at hop
      simp only [] at hop
      rw [htr] at hop
      exact hlo op hop

/-! Publish-safety machinery for the ordering claim: how `PubSafe`
composes along the trace extensions the loop performs. -/

@[simp]
theorem consumedEvents_append (l1 l2 : List TraceOp) :
    consumedEvents (l1 ++ l2) = consumedEvents l1 ++ consumedEvents l2 := by
  simp [consumedEvents]

theorem mem_publishedRts {l : List TraceOp} {rts : ResolvedTs} :
    rts ∈ publishedRts l ↔ TraceOp.updateRts rts ∈ l := by
  induction l with
  | nil => simp [publishedRts]
  | cons op r ih =>
    cases op with
    | updateRts rts2 =>
      simp only [publishedRts, List.mem_cons, ih]
      constructor
      · rintro (h | h)
        · subst h; exact Or.inl rfl
        · exact Or.inr h
      · rintro (h | h)
        · injection h with h1; exact Or.inl h1
        · exact Or.inr h
    | _ => simp_all [publishedRts]

/-- Splitting an appended list at one designated element: the element
lies in the left part (with the right part a suffix of the tail) or in
the right part (with the left part a prefix of the head). -/
theorem append_cons_split {α : Type} {l1 l2 pre post : List α} {x : α}
    (h : l1 ++ l2 = pre ++ x :: post) :
    (∃ mid, l1 = pre ++ x :: mid ∧ post = mid ++ l2)
      ∨ (∃ mid, pre = l1 ++ mid ∧ l2 = mid ++ x :: post) := by
  rcases List.append_eq_append_iff.mp h with ⟨a2, h1, h2⟩ | ⟨c2, h1, h2⟩
  · exact Or.inr ⟨a2, h1, h2⟩
  · cases c2 with
    | nil =>
      right
      exact ⟨[], by simpa using h1.symm, by simpa using h2.symm⟩
    | cons y c3 =>
      left
      rw [List.cons_append] at h2
      injection h2 with hx hpost
      subst hx
      exact ⟨c3, h1, hpost⟩

/-- Appending trace entries containing no publish preserves publish
safety, provided every newly consumed event's commit timestamp dominates
every already-published resolved timestamp. -/
theorem pubSafe_append_safe {t tl : List TraceOp}
    (h : PubSafe t) (hupd : publishedRts tl = [])
    (hcons : ∀ e p, TraceOp.consume e p ∈ tl →
        ∀ rts ∈ publishedRts t, rts.ts ≤ e.crts) :
    PubSafe (t ++ tl) := by
  intro pre rts post heq
  rcases append_cons_split heq with ⟨mid, h1, h2⟩ | ⟨mid, h1, h2⟩
  · obtain ⟨hflush, hpost⟩ := h pre rts mid h1
    refine ⟨hflush, ?_⟩
    intro e p hmem
    rw [h2] at hmem
    rcases List.mem_append.mp hmem with hm | hm
    · exact hpost e p hm
    · refine hcons e p hm rts ?_
      rw [mem_publishedRts, h1]
      simp
  · exfalso
    have : TraceOp.updateRts rts ∈ tl := by
      rw [h2]
      simp
    rw [← mem_publishedRts, hupd] at this
    simp at this

/-- Appending one `Record`-then-publish pair at a point where every
consumed event is already emitted preserves publish safety. -/
theorem pubSafe_snoc_update {t : List TraceOp} {rts0 rts : ResolvedTs}
    {sz : Nat} (h : PubSafe t)
    (hfl : consumedEvents t = emittedEvents t) :
    PubSafe (t ++ [TraceOp.record rts0 sz, TraceOp.updateRts rts]) := by
  intro pre rts2 post heq
  rcases append_cons_split heq with ⟨mid, h1, h2⟩ | ⟨mid, h1, h2⟩
  · obtain ⟨hflush, hpost⟩ := h pre rts2 mid h1
    refine ⟨hflush, ?_⟩
    intro e p hmem
    rw [h2] at hmem
    rcases List.mem_append.mp hmem with hm | hm
    · exact hpost e p hm
    · simp at hm
  · cases mid with
    | nil =>
      rw [List.nil_append] at h2
      injection h2 with hz _
      exact TraceOp.noConfusion hz
    | cons z mid2 =>
      cases mid2 with
      | nil =>
        rw [List.cons_append, List.nil_append] at h2
        injection h2 with hz h2b
        injection h2b with hu h2c
        refine ⟨?_, ?_⟩
        · rw [h1, ← hz, consumedEvents_append, emittedEvents_append]
          have e1 : consumedEvents [TraceOp.record rts0 sz] = [] := rfl
          have e2 : emittedEvents [TraceOp.record rts0 sz] = [] := rfl
          rw [e1, e2, List.append_nil, List.append_nil, hfl]
        · intro e p hmem
          rw [← h2c] at hmem
          simp at hmem
      | cons z2 mid3 =>
        exfalso
        have := congrArg List.length h2
        simp at this

/-- Every bound on published timestamps lifts along the tail property of
`processItem_spec`. -/
theorem publishedRts_extension {t tl : List TraceOp} {c : Nat}
    (hb : ∀ rts ∈ publishedRts t, rts.ts ≤ c)
    (htl : ∀ rts ∈ publishedRts tl, rts.ts = c) :
    ∀ rts ∈ publishedRts (t ++ tl), rts.ts ≤ c := by
  intro rts hm
  rw [publishedRts_append, List.mem_append] at hm
  rcases hm with hm | hm
  · exact hb rts hm
  · exact le_of_eq (htl rts hm)

theorem advanceIfBig_pubSafe (cfg : WorkerCfg) (env : Env) (st : RunState)
    (c : Nat) (hps : PubSafe st.trace)
    (htf : consumedEvents st.trace = emittedEvents st.trace) :
    PubSafe (advanceIfBig cfg env st c).1.trace
      ∧ consumedEvents (advanceIfBig cfg env st c).1.trace
          = emittedEvents (advanceIfBig cfg env st c).1.trace := by
  rcases advanceIfBig_eq cfg env st c with ⟨hge, heq⟩ | ⟨hlt, heq⟩
  · rw [heq, updateTableSinkResolvedTs_eq]
    have hgoal : PubSafe (st.trace
          ++ [TraceOp.record (updRtsVal cfg st c) st.lastTotalSize,
              TraceOp.updateRts (updRtsVal cfg st c)])
        ∧ consumedEvents (st.trace
            ++ [TraceOp.record (updRtsVal cfg st c) st.lastTotalSize,
                TraceOp.updateRts (updRtsVal cfg st c)])
          = emittedEvents (st.trace
            ++ [TraceOp.record (updRtsVal cfg st c) st.lastTotalSize,
                TraceOp.updateRts (updRtsVal cfg st c)]) := by
      refine ⟨pubSafe_snoc_update hps htf, ?_⟩
      rw [consumedEvents_append, emittedEvents_append]
      have e1 : consumedEvents [TraceOp.record (updRtsVal cfg st c)
          st.lastTotalSize, TraceOp.updateRts (updRtsVal cfg st c)] = [] := rfl
      have e2 : emittedEvents [TraceOp.record (updRtsVal cfg st c)
          st.lastTotalSize, TraceOp.updateRts (updRtsVal cfg st c)] = [] := rfl
      rw [e1, e2, List.append_nil, List.append_nil, htf]
    by_cases hb : env.updateErr st.updateCalls = true <;>
      simp only [hb, if_true, if_false, Bool.false_eq_true] <;>
      exact hgoal
  · rw [heq]
    exact ⟨hps, htf⟩

theorem splitStep_pubSafe (cfg : WorkerCfg) (env : Env) (e : PolymorphicEvent)
    (st : RunState) (hps : PubSafe st.trace) (hfl : Flushed st) :
    PubSafe (splitStep cfg env e st).state.trace
      ∧ (∀ st', splitStep cfg env e st = .next st' → Flushed st') := by
  by_cases hc : (cfg.splitTxn && decide (cfg.batchSize ≤ st.batchCount)) = true
  · cases hem : emitEventsToTableSink env st.events with
    | none =>
      constructor
      · simpa [splitStep, hc, hem, StepResult.state] using hps
      · intro st' h
        simp [splitStep, hc, hem] at h
    | some size =>
      have hps1 : PubSafe ({ st with
          trace := st.trace ++ [TraceOp.emit st.events],
          lastTotalSize := st.lastTotalSize + size } : RunState).trace := by
        refine pubSafe_append_safe hps (by simp [publishedRts]) ?_
        intro e' p' hm
        simp at hm
      have htf1 : consumedEvents ({ st with
            trace := st.trace ++ [TraceOp.emit st.events],
            lastTotalSize := st.lastTotalSize + size } : RunState).trace
          = emittedEvents ({ st with
            trace := st.trace ++ [TraceOp.emit st.events],
            lastTotalSize := st.lastTotalSize + size } : RunState).trace := by
        simp only []
        rw [consumedEvents_append, emittedEvents_append]
        have e1 : consumedEvents [TraceOp.emit st.events] = [] := rfl
        have e2 : emittedEvents [TraceOp.emit st.events] = st.events ++ [] := by
          simp [emittedEvents]
        rw [e1, e2, List.append_nil, List.append_nil, hfl]
      obtain ⟨hpsA, htfA⟩ := advanceIfBig_pubSafe cfg env
        { st with trace := st.trace ++ [TraceOp.emit st.events],
                  lastTotalSize := st.lastTotalSize + size } e.crts hps1 htf1
      obtain ⟨tail2, ht2, hcp2, hev2, hec2, hfa2, hlo2, hpu2, ham2, hevs2,
          hlp2, hbc2, hxc2⟩ :=
        advanceIfBig_spec cfg env
          { st with trace := st.trace ++ [TraceOp.emit st.events],
                    lastTotalSize := st.lastTotalSize + size } e.crts
      cases hA : advanceIfBig cfg env
          { st with trace := st.trace ++ [TraceOp.emit st.events],
                    lastTotalSize := st.lastTotalSize + size } e.crts with
      | mk A1 bad =>
        rw [hA] at hpsA htfA hevs2
        simp only [] at hpsA htfA hevs2
        have hred : splitStep cfg env e st
            = (if bad = true then StepResult.fail A1 RunError.updateFail
               else StepResult.next { A1 with events := [] }) := by
          simp [splitStep, hc, hem, hA]
        constructor
        · rw [hred]
          cases bad <;> simpa [StepResult.state] using hpsA
        · intro st' h
          rw [hred] at h
          cases bad with
          | true => simp at h
          | false =>
            simp at h
            rw [← h]
            show consumedEvents A1.trace = emittedEvents A1.trace ++ []
            rw [List.append_nil]
            exact htfA
  · constructor
    · simpa [splitStep, hc, StepResult.state] using hps
    · intro st' h
      simp [splitStep, hc] at h
      rw [← h]
      exact hfl

theorem boundaryFlush_pubSafe (cfg : WorkerCfg) (env : Env)
    (e : PolymorphicEvent) (st : RunState)
    (hps : PubSafe st.trace) (hfl : Flushed st) :
    PubSafe (boundaryFlush cfg env e st).state.trace
      ∧ (∀ st', boundaryFlush cfg env e st = .next st' → Flushed st') := by
  cases hem : emitEventsToTableSink env st.events with
  | none =>
    constructor
    · simpa [boundaryFlush, hem, StepResult.state] using hps
    · intro st' h
      simp [boundaryFlush, hem] at h
  | some size =>
    have hps1 : PubSafe ({ st with
        trace := st.trace ++ [TraceOp.emit st.events],
        lastTotalSize := st.lastTotalSize + size,
        events := [] } : RunState).trace := by
      refine pubSafe_append_safe hps (by simp [publishedRts]) ?_
      intro e' p' hm
      simp at hm
    have htf1 : consumedEvents ({ st with
          trace := st.trace ++ [TraceOp.emit st.events],
          lastTotalSize := st.lastTotalSize + size,
          events := [] } : RunState).trace
        = emittedEvents ({ st with
          trace := st.trace ++ [TraceOp.emit st.events],
          lastTotalSize := st.lastTotalSize + size,
          events := [] } : RunState).trace := by
      simp only []
      rw [consumedEvents_append, emittedEvents_append]
      have e1 : consumedEvents [TraceOp.emit st.events] = [] := rfl
      have e2 : emittedEvents [TraceOp.emit st.events] = st.events ++ [] := by
        simp [emittedEvents]
      rw [e1, e2, List.append_nil, List.append_nil, hfl]
    obtain ⟨hpsA, htfA⟩ := advanceIfBig_pubSafe cfg env
      { st with trace := st.trace ++ [TraceOp.emit st.events],
                lastTotalSize := st.lastTotalSize + size, events := [] }
      e.crts hps1 htf1
    obtain ⟨tail2, ht2, hcp2, hev2, hec2, hfa2, hlo2, hpu2, ham2, hevs2,
        hlp2, hbc2, hxc2⟩ :=
      advanceIfBig_spec cfg env
        { st with trace := st.trace ++ [TraceOp.emit st.events],
                  lastTotalSize := st.lastTotalSize + size, events := [] } e.crts
    cases hA : advanceIfBig cfg env
        { st with trace := st.trace ++ [TraceOp.emit st.events],
                  lastTotalSize := st.lastTotalSize + size, events := [] }
        e.crts with
    | mk A1 bad =>
      rw [hA] at hpsA htfA hevs2
      simp only [] at hpsA htfA hevs2
      cases bad with
      | true =>
        have hred : boundaryFlush cfg env e st
            = StepResult.fail A1 RunError.updateFail := by
          simp [boundaryFlush, hem, hA]
        constructor
        · simpa [hred, StepResult.state] using hpsA
        · intro st' h
          rw [hred] at h
          exact StepResult.noConfusion h
      | false =>
        cases hans : env.isExceed A1.exceedCalls with
        | true =>
          cases hU : updateTableSinkResolvedTs cfg env
              { A1 with exceedCalls := A1.exceedCalls + 1 } e.crts
              A1.lastTotalSize with
          | mk B1 bad2 =>
            have hUeq := updateTableSinkResolvedTs_eq cfg env
              { A1 with exceedCalls := A1.exceedCalls + 1 } e.crts
              A1.lastTotalSize
            rw [hU] at hUeq
            have hB1 : B1.trace = A1.trace
                ++ [TraceOp.record (updRtsVal cfg
                      { A1 with exceedCalls := A1.exceedCalls + 1 } e.crts)
                      A1.lastTotalSize,
                    TraceOp.updateRts (updRtsVal cfg
                      { A1 with exceedCalls := A1.exceedCalls + 1 } e.crts)] := by
              have := congrArg (fun r => r.1.trace) hUeq
              simpa using this
            have hpsB : PubSafe B1.trace := by
              rw [hB1]
              exact pubSafe_snoc_update hpsA htfA
            have hred : boundaryFlush cfg env e st
                = (if bad2 = true then StepResult.fail B1 RunError.updateFail
                   else StepResult.brk { B1 with lastTotalSize := 0 }) := by
              simp [boundaryFlush, hem, hA, hans, hU]
            constructor
            · rw [hred]
              cases bad2 <;> simpa [StepResult.state] using hpsB
            · intro st' h
              rw [hred] at h
              cases bad2 <;> simp at h
        | false =>
          have hred : boundaryFlush cfg env e st
              = splitStep cfg env e
                  { A1 with exceedCalls := A1.exceedCalls + 1 } := by
            simp [boundaryFlush, hem, hA, hans]
          have hfl3 : Flushed { A1 with exceedCalls := A1.exceedCalls + 1 } := by
            show consumedEvents A1.trace = emittedEvents A1.trace ++ A1.events
            rw [hevs2, List.append_nil]
            exact htfA
          rw [hred]
          exact splitStep_pubSafe cfg env e
            { A1 with exceedCalls := A1.exceedCalls + 1 } hpsA hfl3

theorem boundaryStep_pubSafe (cfg : WorkerCfg) (env : Env)
    (e : PolymorphicEvent) (pos : Position) (st : RunState)
    (hps : PubSafe st.trace) (hfl : Flushed st) :
    PubSafe (boundaryStep cfg env e pos st).state.trace
      ∧ (∀ st', boundaryStep cfg env e pos st = .next st' → Flushed st') := by
  by_cases hsp : cfg.splitTxn = true
  · have hred : boundaryStep cfg env e pos st
        = boundaryFlush cfg env e
            { st with lastPos := pos, batchID := 1,
                      trace := st.trace ++ [TraceOp.resetBatch] } := by
      simp [boundaryStep, hsp]
    have hps2 : PubSafe (st.trace ++ [TraceOp.resetBatch]) := by
      refine pubSafe_append_safe hps (by simp [publishedRts]) ?_
      intro e' p' hm
      simp at hm
    have hfl2 : Flushed { st with
                  lastPos := pos,
                  batchID := 1,
                  trace := st.trace ++ [TraceOp.resetBatch] } := by
      show consumedEvents (st.trace ++ [TraceOp.resetBatch])
          = emittedEvents (st.trace ++ [TraceOp.resetBatch]) ++ st.events
      rw [consumedEvents_append, emittedEvents_append]
      have e1 : consumedEvents [TraceOp.resetBatch] = [] := rfl
      have e2 : emittedEvents [TraceOp.resetBatch] = [] := rfl
      rw [e1, e2, List.append_nil, List.append_nil]
      exact hfl
    rw [hred]
    exact boundaryFlush_pubSafe cfg env e _ hps2 hfl2
  · have hred : boundaryStep cfg env e pos st
        = boundaryFlush cfg env e { st with lastPos := pos } := by
      simp [boundaryStep, hsp]
    rw [hred]
    exact boundaryFlush_pubSafe cfg env e _ hps hfl

theorem processItem_pubSafe (cfg : WorkerCfg) (env : Env)
    (e : PolymorphicEvent) (pos : Position) (st : RunState)
    (hps : PubSafe st.trace) (hfl : Flushed st)
    (hbnd : ∀ rts ∈ publishedRts st.trace, rts.ts ≤ e.crts) :
    PubSafe (processItem cfg env e pos st).state.trace
      ∧ (∀ st', processItem cfg env e pos st = .next st' → Flushed st') := by
  cases hacq : acquireAvailableMem cfg st.availableMem e.size with
  | mk newAvail k =>
    have hpsM : PubSafe ({ st with
        availableMem := newAvail - e.size,
        events := st.events ++ [e],
        trace := st.trace
          ++ List.replicate k (TraceOp.forceAcquire cfg.defaultMemoryUsage)
          ++ [TraceOp.consume e pos] } : RunState).trace := by
      simp only []
      have h1 : PubSafe (st.trace
          ++ (List.replicate k (TraceOp.forceAcquire cfg.defaultMemoryUsage)
              ++ [TraceOp.consume e pos])) := by
        refine pubSafe_append_safe hps (by simp [publishedRts]) ?_
        intro e' p' hm rts hr
        rcases List.mem_append.mp hm with hm | hm
        · exact absurd (List.eq_of_mem_replicate hm) (by simp)
        · simp at hm
          obtain ⟨he, _⟩ := hm
          subst he
          exact hbnd rts hr
      simpa [List.append_assoc] using h1
    have hflM : Flushed { st with
        availableMem := newAvail - e.size,
        events := st.events ++ [e],
        trace := st.trace
          ++ List.replicate k (TraceOp.forceAcquire cfg.defaultMemoryUsage)
          ++ [TraceOp.consume e pos] } := by
      show consumedEvents (st.trace
            ++ List.replicate k (TraceOp.forceAcquire cfg.defaultMemoryUsage)
            ++ [TraceOp.consume e pos])
          = emittedEvents (st.trace
            ++ List.replicate k (TraceOp.forceAcquire cfg.defaultMemoryUsage)
            ++ [TraceOp.consume e pos]) ++ (st.events ++ [e])
      rw [consumedEvents_append, consumedEvents_append,
        emittedEvents_append, emittedEvents_append]
      have c1 : consumedEvents
          (List.replicate k (TraceOp.forceAcquire cfg.defaultMemoryUsage))
          = [] := by simp [consumedEvents]
      have c2 : consumedEvents [TraceOp.consume e pos] = [e] := rfl
      have e1 : emittedEvents
          (List.replicate k (TraceOp.forceAcquire cfg.defaultMemoryUsage))
          = [] := by simp
      have e2 : emittedEvents [TraceOp.consume e pos] = [] := rfl
      rw [c1, c2, e1, e2, List.append_nil, List.append_nil, hfl]
      simp [List.append_assoc]
    cases hv : env.valid pos with
    | true =>
      have hred : processItem cfg env e pos st
          = boundaryStep cfg env e pos
              { st with
                  availableMem := newAvail - e.size,
                  events := st.events ++ [e],
                  trace := st.trace
                    ++ List.replicate k
                        (TraceOp.forceAcquire cfg.defaultMemoryUsage)
                    ++ [TraceOp.consume e pos] } := by
        simp [processItem, hacq, hv]
      rw [hred]
      exact boundaryStep_pubSafe cfg env e pos _ hpsM hflM
    | false =>
      have hred : processItem cfg env e pos st
          = splitStep cfg env e
              { st with
                  availableMem := newAvail - e.size,
                  events := st.events ++ [e],
                  trace := st.trace
                    ++ List.replicate k
                        (TraceOp.forceAcquire cfg.defaultMemoryUsage)
                    ++ [TraceOp.consume e pos] } := by
        simp [processItem, hacq, hv]
      rw [hred]
      exact splitStep_pubSafe cfg env e _ hpsM hflM

theorem runLoop_pubSafe (cfg : WorkerCfg) (env : Env) :
    ∀ (items : List (PolymorphicEvent × Position)) (st : RunState),
      PubSafe st.trace → Flushed st →
      (∀ rts ∈ publishedRts st.trace, ∀ it ∈ items, rts.ts ≤ it.1.crts) →
      List.Sorted (· ≤ ·) (items.map (fun it => it.1.crts)) →
      PubSafe (runLoop cfg env items st).state.trace := by
  intro items
  induction items with
  | nil =>
    intro st hps _ _ _
    simpa [runLoop, LoopResult.state] using hps
  | cons it rest ih =>
    intro st hps hfl hbnd hsorted
    cases it with
    | mk e pos =>
      have hbndhead : ∀ rts ∈ publishedRts st.trace, rts.ts ≤ e.crts :=
        fun rts hr => hbnd rts hr (e, pos) (by simp)
      obtain ⟨hpsR, hflR⟩ :=
        processItem_pubSafe cfg env e pos st hps hfl hbndhead
      rw [List.map_cons, List.sorted_cons] at hsorted
      obtain ⟨hhead, hrest⟩ := hsorted
      cases hres : processItem cfg env e pos st with
      | next st1 =>
        rw [hres] at hpsR
        simp only [StepResult.state] at hpsR
        have hfl1 : Flushed st1 := hflR st1 hres
        obtain ⟨k, tail, ht1, hcp1, hfa1, hlo1, hpu1, _, _, _, _, _⟩ :=
          processItem_spec cfg env e pos st
        rw [hres] at ht1
        simp only [StepResult.state] at ht1
        have hbnd1 : ∀ rts ∈ publishedRts st1.trace,
            ∀ it2 ∈ rest, rts.ts ≤ it2.1.crts := by
          intro rts hr it2 hit2
          rw [ht1] at hr
          have hsplit2 : rts ∈ publishedRts st.trace
              ∨ rts ∈ publishedRts tail := by
            simp [publishedRts] at hr
            tauto
          rcases hsplit2 with h | h
          · exact hbnd rts h it2 (by simp [hit2])
          · have h5 := hpu1 rts h
            have hle : e.crts ≤ it2.1.crts :=
              hhead _ (List.mem_map_of_mem _ hit2)
            omega
        have hloopred : runLoop cfg env ((e, pos) :: rest) st
            = runLoop cfg env rest st1 := by
          rw [runLoop, hres]
        rw [hloopred]
        exact ih st1 hpsR hfl1 hbnd1 hrest
      | brk st1 =>
        rw [hres] at hpsR
        have hloopred : runLoop cfg env ((e, pos) :: rest) st
            = LoopResult.stopped st1 := by
          rw [runLoop, hres]
        rw [hloopred]
        simpa [StepResult.state, LoopResult.state] using hpsR
      | fail st1 er =>
        rw [hres] at hpsR
        have hloopred : runLoop cfg env ((e, pos) :: rest) st
            = LoopResult.failed st1 er := by
          rw [runLoop, hres]
        rw [hloopred]
        simpa [StepResult.state, LoopResult.state] using hpsR

theorem runTask_pubSafe (cfg : WorkerCfg) (env : Env) (t : TaskInput)
    (hsorted : List.Sorted (· ≤ ·) (t.items.map (fun it => it.1.crts))) :
    PubSafe (runTask cfg env t).1.trace := by
  have hps0 : PubSafe (initState cfg).trace := by
    intro pre rts post h
    exact absurd h (by simp [initState])
  have hfl0 : Flushed (initState cfg) := by
    show consumedEvents [] = emittedEvents [] ++ []
    rfl
  have hbnd0 : ∀ rts ∈ publishedRts (initState cfg).trace,
      ∀ it ∈ t.items, rts.ts ≤ it.1.crts := by
    intro rts hr
    simp [initState, publishedRts] at hr
  have hloop := runLoop_pubSafe cfg env t.items (initState cfg)
    hps0 hfl0 hbnd0 hsorted
  unfold runTask
  cases hres : runLoop cfg env t.items (initState cfg) with
  | failed st er =>
    rw [hres] at hloop
    simpa [LoopResult.state] using hloop
  | done st =>
    rw [hres] at hloop
    simp only [LoopResult.state] at hloop
    by_cases hfe : t.endsWithFetchError = true
    · simpa [hfe] using hloop
    · simp only [hfe, Bool.false_eq_true, if_false, finishTask]
      refine pubSafe_append_safe hloop (by simp [publishedRts]) ?_
      intro e' p' hm
      simp at hm
  | stopped st =>
    rw [hres] at hloop
    simp only [LoopResult.state] at hloop
    simp only [finishTask]
    refine pubSafe_append_safe hloop (by simp [publishedRts]) ?_
    intro e' p' hm
    simp at hm

/-! Error-freedom lemmas: when the sink neither rejects events nor
rejects publishes, the loop can never abort. -/

theorem emitEventsToTableSink_ok (env : Env)
    (herrv : ∀ e', env.verifyErr e' = false) (evs : List PolymorphicEvent) :
    emitEventsToTableSink env evs = some (sumSizes evs) := by
  induction evs with
  | nil => simp [emitEventsToTableSink, sumSizes]
  | cons e r ih => simp [emitEventsToTableSink, herrv, ih, sumSizes]

theorem advanceIfBig_ok (cfg : WorkerCfg) (env : Env) (st : RunState) (c : Nat)
    (herru : ∀ n, env.updateErr n = false) :
    (advanceIfBig cfg env st c).2 = false := by
  rcases advanceIfBig_eq cfg env st c with ⟨hge, heq⟩ | ⟨hlt, heq⟩
  · rw [heq]
    simp [updateTableSinkResolvedTs_eq, herru]
  · rw [heq]

theorem splitStep_no_fail (cfg : WorkerCfg) (env : Env) (e : PolymorphicEvent)
    (st : RunState) (herrv : ∀ e', env.verifyErr e' = false)
    (herru : ∀ n, env.updateErr n = false) :
    ∀ st1 er, splitStep cfg env e st ≠ .fail st1 er := by
  intro st1 er h
  unfold splitStep at h
  split at h
  · rw [emitEventsToTableSink_ok env herrv st.events] at h
    dsimp only [] at h
    split at h
    · case _ hc => rw [advanceIfBig_ok cfg env _ _ herru] at hc; exact absurd hc (by simp)
    · exact StepResult.noConfusion h
  · exact StepResult.noConfusion h

theorem boundaryFlush_no_fail (cfg : WorkerCfg) (env : Env)
    (e : PolymorphicEvent) (st : RunState)
    (herrv : ∀ e', env.verifyErr e' = false)
    (herru : ∀ n, env.updateErr n = false) :
    ∀ st1 er, boundaryFlush cfg env e st ≠ .fail st1 er := by
  intro st1 er h
  unfold boundaryFlush at h
  rw [emitEventsToTableSink_ok env herrv st.events] at h
  dsimp only [] at h
  split at h
  · case _ hc => rw [advanceIfBig_ok cfg env _ _ herru] at hc; exact absurd hc (by simp)
  · split at h
    · split at h
      · case _ hc =>
        rw [updateTableSinkResolvedTs_eq] at hc
        simp [herru] at hc
      · exact StepResult.noConfusion h
    · exact splitStep_no_fail cfg env e _ herrv herru st1 er h

theorem processItem_no_fail (cfg : WorkerCfg) (env : Env)
    (e : PolymorphicEvent) (pos : Position) (st : RunState)
    (herrv : ∀ e', env.verifyErr e' = false)
    (herru : ∀ n, env.updateErr n = false) :
    ∀ st1 er, processItem cfg env e pos st ≠ .fail st1 er := by
  intro st1 er h
  unfold processItem at h
  dsimp only [] at h
  split at h
  · unfold boundaryStep at h
    exact boundaryFlush_no_fail cfg env e _ herrv herru st1 er h
  · exact splitStep_no_fail cfg env e _ herrv herru st1 er h

theorem runLoop_no_failed (cfg : WorkerCfg) (env : Env)
    (items : List (PolymorphicEvent × Position)) (st : RunState)
    (herrv : ∀ e', env.verifyErr e' = false)
    (herru : ∀ n, env.updateErr n = false) :
    ∀ st1 er, runLoop cfg env items st ≠ .failed st1 er := by
  induction items generalizing st with
  | nil => intro st1 er h; simp [runLoop] at h
  | cons it rest ih =>
    intro st1 er h
    cases it with
    | mk e pos =>
      rw [runLoop] at h
      cases hres : processItem cfg env e pos st with
      | next st2 => rw [hres] at h; exact ih st2 st1 er h
      | brk st2 => rw [hres] at h; exact LoopResult.noConfusion h
      | fail st2 er2 =>
        exact processItem_no_fail cfg env e pos st herrv herru st2 er2 hres

theorem runTask_ok (cfg : WorkerCfg) (env : Env) (t : TaskInput)
    (herrv : ∀ e', env.verifyErr e' = false)
    (herru : ∀ n, env.updateErr n = false)
    (hfe : t.endsWithFetchError = false) (hcl : t.closeFails = false) :
    (runTask cfg env t).2 = none := by
  unfold runTask
  cases hres : runLoop cfg env t.items (initState cfg) with
  | done st => simp [hfe, finishTask, hcl]
  | stopped st => simp [finishTask, hcl]
  | failed st er =>
    exact absurd hres (runLoop_no_failed cfg env t.items (initState cfg)
      herrv herru st er)

/-- The quota-exceedance branch of the boundary handling: with an
error-free sink and `IsExceed` answering true, the block publishes a
resolved timestamp at the event's commit timestamp as its final actions
and breaks out of the loop, preserving `lastPos`, the allowance and the
consumed events. -/
theorem boundaryFlush_exceed (cfg : WorkerCfg) (env : Env)
    (e : PolymorphicEvent) (st : RunState)
    (herrv : ∀ e', env.verifyErr e' = false)
    (herru : ∀ n, env.updateErr n = false)
    (hex : env.isExceed st.exceedCalls = true) :
    ∃ st2, boundaryFlush cfg env e st = .brk st2
      ∧ st2.lastPos = st.lastPos
      ∧ st2.availableMem = st.availableMem
      ∧ consumedPairs st2.trace = consumedPairs st.trace
      ∧ ∃ pre2 rts sz,
          st2.trace = pre2 ++ [TraceOp.record rts sz, TraceOp.updateRts rts]
            ∧ rts.ts = e.crts := by
  have hem : emitEventsToTableSink env st.events = some (sumSizes st.events) :=
    emitEventsToTableSink_ok env herrv st.events
  obtain ⟨tail2, ht2, hcp2, hev2, hec2, hfa2, hlo2, hpu2, ham2, hevs2,
      hlp2, hbc2, hxc2⟩ :=
    advanceIfBig_spec cfg env
      { st with trace := st.trace ++ [TraceOp.emit st.events],
                lastTotalSize := st.lastTotalSize + sumSizes st.events,
                events := [] } e.crts
  have hok := advanceIfBig_ok cfg env
    { st with trace := st.trace ++ [TraceOp.emit st.events],
              lastTotalSize := st.lastTotalSize + sumSizes st.events,
              events := [] } e.crts herru
  cases hA : advanceIfBig cfg env
      { st with trace := st.trace ++ [TraceOp.emit st.events],
                lastTotalSize := st.lastTotalSize + sumSizes st.events,
                events := [] } e.crts with
  | mk A1 bad =>
    rw [hA] at ht2 ham2 hevs2 hlp2 hbc2 hxc2 hok
    simp only [] at ht2 ham2 hlp2 hbc2 hxc2 hok
    subst hok
    have hans : env.isExceed A1.exceedCalls = true := by
      rw [hxc2]
      exact hex
    have hUeq := updateTableSinkResolvedTs_eq cfg env
      { A1 with exceedCalls := A1.exceedCalls + 1 } e.crts A1.lastTotalSize
    have hred : boundaryFlush cfg env e st
        = .brk { (updateTableSinkResolvedTs cfg env
              { A1 with exceedCalls := A1.exceedCalls + 1 } e.crts
              A1.lastTotalSize).1 with lastTotalSize := 0 } := by
      simp [boundaryFlush, hem, hA, hans, hUeq, herru]
    refine ⟨_, hred, ?_, ?_, ?_, ?_⟩
    · rw [hUeq]
      simp [hlp2]
    · rw [hUeq]
      simp [ham2]
    · rw [hUeq]
      simp [consumedPairs, ht2, hcp2]
    · refine ⟨A1.trace,
        updRtsVal cfg { A1 with exceedCalls := A1.exceedCalls + 1 } e.crts,
        A1.lastTotalSize, ?_, by simp⟩
      rw [hUeq]

/-- The whole loop iteration on a valid position with `IsExceed` true:
the worker consumes the event, publishes the boundary's resolved
timestamp last, records the boundary as `lastPos` and breaks. -/
theorem processItem_exceed (cfg : WorkerCfg) (env : Env)
    (e : PolymorphicEvent) (pos : Position) (st : RunState)
    (herrv : ∀ e', env.verifyErr e' = false)
    (herru : ∀ n, env.updateErr n = false)
    (hv : env.valid pos = true)
    (hex : env.isExceed st.exceedCalls = true) :
    ∃ st2, processItem cfg env e pos st = .brk st2
      ∧ st2.lastPos = pos
      ∧ consumedPairs st2.trace = consumedPairs st.trace ++ [(e, pos)]
      ∧ ∃ pre2 rts sz,
          st2.trace = pre2 ++ [TraceOp.record rts sz, TraceOp.updateRts rts]
            ∧ rts.ts = e.crts := by
  cases hacq : acquireAvailableMem cfg st.availableMem e.size with
  | mk newAvail k =>
    by_cases hsp : cfg.splitTxn = true
    · obtain ⟨st2, hbf, hlp, ham, hcp, hpub⟩ :=
        boundaryFlush_exceed cfg env e
          { st with
              availableMem := newAvail - e.size,
              events := (st.events ++ [e]),
              lastPos := pos,
              batchID := 1,
              trace := (st.trace
                ++ List.replicate k (TraceOp.forceAcquire cfg.defaultMemoryUsage)
                ++ [TraceOp.consume e pos]) ++ [TraceOp.resetBatch] }
          herrv herru (by simpa using hex)
      refine ⟨st2, ?_, by simpa using hlp, ?_, hpub⟩
      · rw [processItem]
        simp only [hacq, hv, if_true]
        rw [boundaryStep]
        simp only [hsp, if_true]
        convert hbf using 2 <;> simp
      · rw [hcp]
        simp [consumedPairs, hcp]
    · obtain ⟨st2, hbf, hlp, ham, hcp, hpub⟩ :=
        boundaryFlush_exceed cfg env e
          { st with
              availableMem := newAvail - e.size,
              events := st.events ++ [e],
              lastPos := pos,
              trace := st.trace
                ++ List.replicate k (TraceOp.forceAcquire cfg.defaultMemoryUsage)
                ++ [TraceOp.consume e pos] }
          herrv herru (by simpa using hex)
      refine ⟨st2, ?_, by simpa using hlp, ?_, hpub⟩
      · rw [processItem]
        simp only [hacq, hv, if_true]
        rw [boundaryStep]
        simp only [hsp, if_false]
        convert hbf using 2 <;> simp
      · rw [hcp]
        simp [consumedPairs, hcp]

/-! The claim theorems. -/

/-- C1 (amended): over cursor yields in non-decreasing commit order, at
every resolved-timestamp publish the pending batch has already been
fully emitted — the worker never publishes a resolved timestamp covering
events still held in its pending batch — and every consumed event of a
transaction is emitted to the table sink before any resolved timestamp
with commit timestamp STRICTLY greater than that transaction's commit
timestamp is published.  (With "greater than or equal", as the claim
states it, the mid-transaction batch-mode publish falsifies it; see the
counterexample.) -/
theorem txn_flushed_before_covering_publish (cfg : WorkerCfg) (env : Env)
    (t : TaskInput)
    (hsorted : List.Sorted (· ≤ ·) (t.items.map (fun it => it.1.crts))) :
    ∀ pre rts post,
      (runTask cfg env t).1.trace = pre ++ TraceOp.updateRts rts :: post →
        consumedEvents pre = emittedEvents pre
          ∧ ∀ e p, TraceOp.consume e p ∈ (runTask cfg env t).1.trace →
              e.crts < rts.ts →
              TraceOp.consume e p ∈ pre ∧ e ∈ emittedEvents pre := by
  intro pre rts post heq
  obtain ⟨hflush, hpost⟩ := runTask_pubSafe cfg env t hsorted pre rts post heq
  refine ⟨hflush, ?_⟩
  intro e p hmem hlt
  rw [heq] at hmem
  rcases List.mem_append.mp hmem with hm | hm
  · refine ⟨hm, ?_⟩
    rw [← hflush]
    exact mem_consumedEvents_of_consume_mem hm
  · rcases List.mem_cons.mp hm with hm | hm
    · exact absurd hm (by simp)
    · have := hpost e p hm
      omega

/-- C1 witness: the single-transaction run has sorted commit timestamps
and satisfies the flush-before-publish ordering. -/
theorem txn_flushed_before_covering_publish_witness :
    List.Sorted (· ≤ ·) (exOneTask.items.map (fun it => it.1.crts))
      ∧ ∀ pre rts post,
          (runTask exCfg calmEnv exOneTask).1.trace
              = pre ++ TraceOp.updateRts rts :: post →
            consumedEvents pre = emittedEvents pre
              ∧ ∀ e p,
                  TraceOp.consume e p ∈ (runTask exCfg calmEnv exOneTask).1.trace →
                  e.crts < rts.ts →
                  TraceOp.consume e p ∈ pre ∧ e ∈ emittedEvents pre :=
  ⟨by decide,
   txn_flushed_before_covering_publish exCfg calmEnv exOneTask (by decide)⟩

/-- C1 counterexample: with splitting enabled and batch size 0, the first
event of the commit-timestamp-5 transaction alone reaches the flush
interval, so a batch-mode resolved timestamp with commit timestamp 5 — a
timestamp greater than or equal to the transaction's — is published
while the transaction's second event is neither consumed nor emitted;
the claim as stated (with "greater than or equal") is false. -/
theorem publish_covering_unflushed_event :
    (runTask c1Cfg calmEnv c1Task).1.trace
        = [TraceOp.consume ⟨5, 268435456⟩ ⟨0, 0⟩,
           TraceOp.emit [⟨5, 268435456⟩],
           TraceOp.record ⟨5, true, 1⟩ 268435456]
          ++ TraceOp.updateRts ⟨5, true, 1⟩ ::
            [TraceOp.consume ⟨5, 10⟩ ⟨5, 4⟩,
             TraceOp.resetBatch,
             TraceOp.emit [⟨5, 10⟩],
             TraceOp.emit [],
             TraceOp.refund 268435446,
             TraceOp.callbackOp ⟨5, 4⟩,
             TraceOp.iterClose]
      ∧ TraceOp.consume ⟨5, 10⟩ ⟨5, 4⟩
          ∈ [TraceOp.consume ⟨5, 10⟩ ⟨5, 4⟩,
             TraceOp.resetBatch,
             TraceOp.emit [⟨5, 10⟩],
             TraceOp.emit [],
             TraceOp.refund 268435446,
             TraceOp.callbackOp ⟨5, 4⟩,
             TraceOp.iterClose]
      ∧ (⟨5, 10⟩ : PolymorphicEvent).crts ≤ (⟨5, true, 1⟩ : ResolvedTs).ts
      ∧ (⟨5, 10⟩ : PolymorphicEvent)
          ∉ emittedEvents [TraceOp.consume ⟨5, 268435456⟩ ⟨0, 0⟩,
              TraceOp.emit [⟨5, 268435456⟩],
              TraceOp.record ⟨5, true, 1⟩ 268435456] := by
  refine ⟨?_, by decide, by decide, by decide⟩
  simp [runTask, runLoop, processItem, boundaryStep, boundaryFlush, splitStep,
    advanceIfBig, updateTableSinkResolvedTs, emitEventsToTableSink,
    acquireAvailableMem, initState, finishTask, LoopResult.state,
    StepResult.state, maxUpdateIntervalSize, newResolvedTs, c1Cfg, calmEnv,
    exEnv, c1Task]

/-- C2 (amended): for every sequence of events processed in one task, the
position passed to the completion callback is the position of the last
valid (transaction-boundary) event consumed, and the Go zero-value
position — not the task's initial lower bound — when no valid position
was consumed (`var lastPos sorter.Position` at worker_impl.go line 48). -/
theorem callback_position_eq_last_valid_consumed (cfg : WorkerCfg) (env : Env)
    (t : TaskInput) (q : Position)
    (h : TraceOp.callbackOp q ∈ (runTask cfg env t).1.trace) :
    q = lastValidOr env (consumedPairs (runTask cfg env t).1.trace) ⟨0, 0⟩ := by
  obtain ⟨hbc, hsucc, herr⟩ := runTask_spec cfg env t
  have hepi : ((runTask cfg env t).2 = none
      ∨ (runTask cfg env t).2 = some RunError.closeFail) →
      q = lastValidOr env (consumedPairs (runTask cfg env t).1.trace) ⟨0, 0⟩ := by
    intro hR
    obtain ⟨pre, a, p, htrace, hpre, hp, hacc⟩ := hsucc hR
    rw [htrace] at h ⊢
    have hq : q = p := by
      rcases List.mem_append.mp h with h1 | h1
      · have := hpre _ h1
        simp [loopOp] at this
      · simp at h1
        exact h1
    subst hq
    simp [consumedPairs, hp]
  cases hR : (runTask cfg env t).2 with
  | none => exact hepi (Or.inl hR)
  | some er =>
    by_cases hcf : er = RunError.closeFail
    · subst hcf
      exact hepi (Or.inr hR)
    · have := herr er hR hcf _ h
      simp [loopOp] at this

/-- C2 witness: in the single-transaction run the callback receives the
boundary position, which is the last valid consumed position. -/
theorem callback_position_eq_last_valid_consumed_witness :
    TraceOp.callbackOp ⟨5, 4⟩ ∈ (runTask exCfg calmEnv exOneTask).1.trace
      ∧ (⟨5, 4⟩ : Position)
          = lastValidOr calmEnv
              (consumedPairs (runTask exCfg calmEnv exOneTask).1.trace) ⟨0, 0⟩ := by
  have hmem : TraceOp.callbackOp (⟨5, 4⟩ : Position)
      ∈ (runTask exCfg calmEnv exOneTask).1.trace := by
    simp [runTask, runLoop, processItem, boundaryStep, boundaryFlush, splitStep,
      advanceIfBig, updateTableSinkResolvedTs, emitEventsToTableSink,
      acquireAvailableMem, initState, finishTask, LoopResult.state,
      StepResult.state, maxUpdateIntervalSize, newResolvedTs, exCfg, calmEnv,
      exEnv, exOneTask]
  exact ⟨hmem,
    callback_position_eq_last_valid_consumed exCfg calmEnv exOneTask ⟨5, 4⟩ hmem⟩

/-- C2 counterexample: with an empty cursor and lower bound (3,4), no
valid position is consumed and the callback receives the zero position,
not the task's initial lower bound as the claim states. -/
theorem callback_position_not_lower_bound :
    callbackArgs (runTask exCfg calmEnv exEmptyTask).1.trace = [⟨0, 0⟩]
      ∧ consumedPairs (runTask exCfg calmEnv exEmptyTask).1.trace = []
      ∧ exEmptyTask.lowerBound = ⟨3, 4⟩
      ∧ (⟨0, 0⟩ : Position) ≠ (⟨3, 4⟩ : Position) := by
  refine ⟨by decide, by decide, by decide, by decide⟩

/-- C3: `batchCount` (worker_impl.go line 50) is never incremented, so
with transaction splitting enabled and batch size 2 a five-event
transaction produces exactly one flush — at its boundary — instead of
the at-least-⌈5/2⌉ = 3 flushes the claim requires, and `batchCount` is
still zero at the end of every task whatsoever. -/
theorem split_batch_flush_never_fires :
    emitCalls (runTask c3Cfg calmEnv c3Task).1.trace = 1
      ∧ (5 + 2 - 1) / 2 = 3
      ∧ ¬ 3 ≤ emitCalls (runTask c3Cfg calmEnv c3Task).1.trace
      ∧ ∀ (cfg : WorkerCfg) (env : Env) (t : TaskInput),
          (runTask cfg env t).1.batchCount = 0 := by
  have h1 : emitCalls (runTask c3Cfg calmEnv c3Task).1.trace = 1 := by
    simp [runTask, runLoop, processItem, boundaryStep, boundaryFlush, splitStep,
      advanceIfBig, updateTableSinkResolvedTs, emitEventsToTableSink,
      acquireAvailableMem, initState, finishTask, LoopResult.state,
      StepResult.state, maxUpdateIntervalSize, newResolvedTs, c3Cfg, calmEnv,
      exEnv, c3Task, emitCalls]
  refine ⟨h1, by norm_num, by omega, ?_⟩
  intro cfg env t
  exact (runTask_spec cfg env t).1

/-- C5 (amended): for every task that reaches its epilogue, the refund
equals the initial allowance plus all force-acquired bytes minus the
total approximate size of every consumed event — including bytes flushed
but never recorded and events still pending at the end — and the refund
never exceeds the bytes held. -/
theorem refund_balances_allowance (cfg : WorkerCfg) (env : Env) (t : TaskInput)
    (h : (runTask cfg env t).2 = none) :
    refundedBytes (runTask cfg env t).1.trace
          + sumSizes (consumedEvents (runTask cfg env t).1.trace)
        = cfg.defaultMemoryUsage
          + forceAcquiredBytes (runTask cfg env t).1.trace
      ∧ refundedBytes (runTask cfg env t).1.trace
        ≤ cfg.defaultMemoryUsage
          + forceAcquiredBytes (runTask cfg env t).1.trace := by
  obtain ⟨hbc, hsucc, herr⟩ := runTask_spec cfg env t
  obtain ⟨pre, a, p, htrace, hpre, hp, hacc⟩ := hsucc (Or.inl h)
  rw [htrace]
  have h0 : refundedBytes pre = 0 := refundedBytes_eq_zero_of_loopOps pre hpre
  have hsplit : refundedBytes (pre ++ [TraceOp.refund a, TraceOp.callbackOp p,
      TraceOp.iterClose]) = a := by
    simp [refundedBytes, h0]
  have hcons : consumedEvents (pre ++ [TraceOp.refund a, TraceOp.callbackOp p,
      TraceOp.iterClose]) = consumedEvents pre := by
    simp [consumedEvents, consumedPairs]
  have hforce : forceAcquiredBytes (pre ++ [TraceOp.refund a,
      TraceOp.callbackOp p, TraceOp.iterClose]) = forceAcquiredBytes pre := by
    simp [forceAcquiredBytes]
  rw [hsplit, hcons, hforce]
  unfold consumedEvents
  omega

/-- C5 witness: the single-transaction run reaches its epilogue and its
refund satisfies the allowance balance. -/
theorem refund_balances_allowance_witness :
    (runTask exCfg calmEnv exOneTask).2 = none
      ∧ (refundedBytes (runTask exCfg calmEnv exOneTask).1.trace
              + sumSizes (consumedEvents (runTask exCfg calmEnv exOneTask).1.trace)
            = exCfg.defaultMemoryUsage
              + forceAcquiredBytes (runTask exCfg calmEnv exOneTask).1.trace
          ∧ refundedBytes (runTask exCfg calmEnv exOneTask).1.trace
            ≤ exCfg.defaultMemoryUsage
              + forceAcquiredBytes (runTask exCfg calmEnv exOneTask).1.trace) := by
  have h : (runTask exCfg calmEnv exOneTask).2 = none := by
    simp [runTask, runLoop, processItem, boundaryStep, boundaryFlush, splitStep,
      advanceIfBig, updateTableSinkResolvedTs, emitEventsToTableSink,
      acquireAvailableMem, initState, finishTask, LoopResult.state,
      StepResult.state, maxUpdateIntervalSize, newResolvedTs, exCfg, calmEnv,
      exEnv, exOneTask]
  exact ⟨h, refund_balances_allowance exCfg calmEnv exOneTask h⟩

/-- C5 counterexample: the single 10-byte-transaction run force-acquires
nothing and records nothing, yet refunds 1014 of the 1024 initial bytes;
the refund is not "held via force-acquire minus flushed-and-accounted"
under either reading (with or without the initial grant). -/
theorem refund_not_held_minus_recorded :
    refundedBytes (runTask exCfg calmEnv exOneTask).1.trace = 1014
      ∧ forceAcquiredBytes (runTask exCfg calmEnv exOneTask).1.trace = 0
      ∧ recordedBytes (runTask exCfg calmEnv exOneTask).1.trace = 0
      ∧ exCfg.defaultMemoryUsage = 1024
      ∧ (1014 : Nat) ≠ 0 - 0
      ∧ (1014 : Nat) ≠ 1024 - 0 := by
  refine ⟨?_, ?_, ?_, by decide, by decide, by decide⟩ <;>
    simp [runTask, runLoop, processItem, boundaryStep, boundaryFlush, splitStep,
      advanceIfBig, updateTableSinkResolvedTs, emitEventsToTableSink,
      acquireAvailableMem, initState, finishTask, LoopResult.state,
      StepResult.state, maxUpdateIntervalSize, newResolvedTs, exCfg, calmEnv,
      exEnv, exOneTask, refundedBytes, forceAcquiredBytes, recordedBytes]

/-- C6 (amended): whenever a task reaches its epilogue the completion
callback fires exactly once, after the refund and before — not after —
the cursor close; on a fetch, verification or publish abort the callback
never fires. -/
theorem callback_once_after_refund_before_close (cfg : WorkerCfg) (env : Env)
    (t : TaskInput) :
    (((runTask cfg env t).2 = none
        ∨ (runTask cfg env t).2 = some RunError.closeFail) →
        ∃ pre a p,
          (runTask cfg env t).1.trace
              = pre ++ [TraceOp.refund a, TraceOp.callbackOp p,
                  TraceOp.iterClose]
            ∧ callbackArgs pre = [])
      ∧ (∀ er, (runTask cfg env t).2 = some er → er ≠ RunError.closeFail →
          callbackArgs (runTask cfg env t).1.trace = []) := by
  obtain ⟨hbc, hsucc, herr⟩ := runTask_spec cfg env t
  constructor
  · intro h
    obtain ⟨pre, a, p, htrace, hpre, _, _⟩ := hsucc h
    exact ⟨pre, a, p, htrace, callbackArgs_eq_nil_of_loopOps pre hpre⟩
  · intro er h1 h2
    exact callbackArgs_eq_nil_of_loopOps _ (herr er h1 h2)

/-- C6 witness: the epilogue shape on a completing task, and the absence
of a callback on a task aborted by a fetch error. -/
theorem callback_once_after_refund_before_close_witness :
    (∃ pre a p,
        (runTask exCfg calmEnv exEmptyTask).1.trace
            = pre ++ [TraceOp.refund a, TraceOp.callbackOp p, TraceOp.iterClose]
          ∧ callbackArgs pre = [])
      ∧ callbackArgs (runTask exCfg calmEnv
          { exEmptyTask with endsWithFetchError := true }).1.trace = [] :=
  ⟨(callback_once_after_refund_before_close exCfg calmEnv exEmptyTask).1
      (Or.inl (by decide)),
   (callback_once_after_refund_before_close exCfg calmEnv
        { exEmptyTask with endsWithFetchError := true }).2
      RunError.fetchFail (by decide) (by decide)⟩

/-- C6 counterexample: in a completing run the callback fires at trace
index 1 and the cursor close at index 2 — the callback is invoked before
the cursor is closed, not after it as the claim states. -/
theorem callback_fires_before_cursor_close :
    (runTask exCfg calmEnv exEmptyTask).1.trace
        = [TraceOp.refund 1024, TraceOp.callbackOp ⟨0, 0⟩, TraceOp.iterClose]
      ∧ (runTask exCfg calmEnv exEmptyTask).1.trace.findIdx isCallbackOp = 1
      ∧ (runTask exCfg calmEnv exEmptyTask).1.trace.findIdx isCloseOp = 2
      ∧ (1 : Nat) < 2 := by decide

/-- C8: the force-acquire loop grants exactly the minimal number of
additional default-size units needed for the allowance to cover the
event's size, the grants precede the event's consumption into the
pending batch (so no event is ever dropped for exceeding one grant), and
after the loop the allowance is at least the event's size. -/
theorem force_acquire_exactly_covers (cfg : WorkerCfg) (env : Env)
    (e : PolymorphicEvent) (pos : Position) (st : RunState) :
    ∃ k tail,
      (processItem cfg env e pos st).state.trace
          = st.trace
            ++ List.replicate k (TraceOp.forceAcquire cfg.defaultMemoryUsage)
            ++ TraceOp.consume e pos :: tail
        ∧ e.size ≤ st.availableMem + k * cfg.defaultMemoryUsage
        ∧ (∀ j < k, st.availableMem + j * cfg.defaultMemoryUsage < e.size)
        ∧ (processItem cfg env e pos st).state.availableMem + e.size
            = st.availableMem + k * cfg.defaultMemoryUsage := by
  obtain ⟨k, tail, h1, h2, h3, h4, h5, h6, h7, h8, h9, h10⟩ :=
    processItem_spec cfg env e pos st
  exact ⟨k, tail, h1, h7, h8, h6⟩

/-- C9 (amended): `close()` is a one-shot signal — the first call closes
the channel and makes `run` return `nil` at its next top-level wait, but
a second call panics (closing an already-closed Go channel), so it is
not idempotent. -/
theorem close_one_shot (cfg : WorkerCfg) (env : Env) (rest : List Arrival) :
    closeChannel false = Except.ok true
      ∧ closeChannel true = Except.error GoPanic.closeOfClosedChannel
      ∧ runWorker cfg env (Arrival.closedSignal :: rest) = some none :=
  ⟨rfl, rfl, rfl⟩

/-- C9 counterexample: after one close, a second close does not have the
same effect as the first — it panics instead of returning normally. -/
theorem double_close_panics :
    closeChannel false = Except.ok true
      ∧ closeChannel true ≠ Except.ok true
      ∧ closeChannel true = Except.error GoPanic.closeOfClosedChannel :=
  ⟨rfl, by simp [closeChannel], rfl⟩

/-- C10: with barrier timestamp 0 the uint64 subtraction `B-1` wraps to
the maximum uint64 value, so the fetch range is nonempty rather than the
empty range "strictly before barrier 0" would demand; for every barrier
at least 1 the subtraction is exact. -/
theorem barrier_zero_upper_bound_wraps (b : Nat) (h1 : 1 ≤ b)
    (h2 : b < 2 ^ 64) :
    (computeUpperBound 0).commitTs = 2 ^ 64 - 1
      ∧ (computeUpperBound b).commitTs = b - 1
      ∧ fetchByTable [(⟨9, 10⟩, ⟨9, 8⟩)] ⟨0, 0⟩ (computeUpperBound 0)
          = [(⟨9, 10⟩, ⟨9, 8⟩)] := by
  refine ⟨by decide, ?_, by decide⟩
  have hm : (2 : Nat) ^ 64 = 18446744073709551616 := by norm_num
  simp only [computeUpperBound, uint64Sub1, uint64Mod, hm]
  omega

/-- C10 witness: the wrap equations at the concrete barrier 7. -/
theorem barrier_zero_upper_bound_wraps_witness :
    (computeUpperBound 0).commitTs = 2 ^ 64 - 1
      ∧ (computeUpperBound 7).commitTs = 7 - 1
      ∧ fetchByTable [(⟨9, 10⟩, ⟨9, 8⟩)] ⟨0, 0⟩ (computeUpperBound 0)
          = [(⟨9, 10⟩, ⟨9, 8⟩)] :=
  barrier_zero_upper_bound_wraps 7 (by decide) (by decide)

/-- C4: if `IsExceed` reports the ceiling crossed right after a
transaction-boundary event, the worker publishes the resolved timestamp
for that boundary (the final trace entries before the epilogue are the
`Record` and the publish at the boundary's commit timestamp), performs
no further cursor reads (only that one event is consumed), refunds its
remaining allowance, and fires the callback with the boundary's
position; and with an error-free sink a task never returns an error,
whatever `IsExceed` answers. -/
theorem quota_exceed_graceful_stop :
    (∀ (cfg : WorkerCfg) (env : Env) (t : TaskInput),
        (∀ e', env.verifyErr e' = false) → (∀ n, env.updateErr n = false) →
        t.endsWithFetchError = false → t.closeFails = false →
        (runTask cfg env t).2 = none)
      ∧ ∀ (cfg : WorkerCfg) (env : Env) (lb : Position) (b : Nat)
          (pre : List (PolymorphicEvent × Position)) (e : PolymorphicEvent)
          (pos : Position) (rest : List (PolymorphicEvent × Position))
          (st1 : RunState),
          (∀ e', env.verifyErr e' = false) → (∀ n, env.updateErr n = false) →
          runLoop cfg env pre (initState cfg) = LoopResult.done st1 →
          env.valid pos = true →
          env.isExceed st1.exceedCalls = true →
          ∃ st2,
            processItem cfg env e pos st1 = StepResult.brk st2
              ∧ st2.lastPos = pos
              ∧ runTask cfg env ⟨lb, b, pre ++ (e, pos) :: rest, false, false⟩
                  = ({ st2 with trace := st2.trace
                        ++ [TraceOp.refund st2.availableMem,
                            TraceOp.callbackOp pos, TraceOp.iterClose] }, none)
              ∧ consumedPairs st2.trace = consumedPairs st1.trace ++ [(e, pos)]
              ∧ ∃ pre2 rts sz,
                  st2.trace
                      = pre2 ++ [TraceOp.record rts sz, TraceOp.updateRts rts]
                    ∧ rts.ts = e.crts := by
  constructor
  · exact runTask_ok
  · intro cfg env lb b pre e pos rest st1 herrv herru hpre hv hex
    obtain ⟨st2, hpi, hlp, hcp, hpub⟩ :=
      processItem_exceed cfg env e pos st1 herrv herru hv hex
    have hloop : runLoop cfg env (pre ++ (e, pos) :: rest) (initState cfg)
        = LoopResult.stopped st2 := by
      rw [runLoop_append, hpre]
      simp only [runLoop, hpi]
    refine ⟨st2, hpi, hlp, ?_, hcp, hpub⟩
    simp [runTask, hloop, finishTask, hlp]

/-- C4 witness: with an always-exceeding quota oracle, a two-transaction
task stops after the first boundary with the full early-stop shape; an
error-free task returns no error. -/
theorem quota_exceed_graceful_stop_witness :
    (runTask exCfg calmEnv exOneTask).2 = none
      ∧ ∃ st2,
          processItem exCfg exEnv ⟨5, 10⟩ ⟨5, 4⟩ (initState exCfg)
              = StepResult.brk st2
            ∧ st2.lastPos = ⟨5, 4⟩
            ∧ runTask exCfg exEnv
                  ⟨⟨0, 0⟩, 100, [] ++ (⟨5, 10⟩, ⟨5, 4⟩) :: [(⟨7, 10⟩, ⟨7, 6⟩)],
                    false, false⟩
                = ({ st2 with trace := st2.trace
                      ++ [TraceOp.refund st2.availableMem,
                          TraceOp.callbackOp ⟨5, 4⟩, TraceOp.iterClose] }, none)
            ∧ consumedPairs st2.trace
                = consumedPairs (initState exCfg).trace ++ [(⟨5, 10⟩, ⟨5, 4⟩)]
            ∧ ∃ pre2 rts sz,
                st2.trace
                    = pre2 ++ [TraceOp.record rts sz, TraceOp.updateRts rts]
                  ∧ rts.ts = (⟨5, 10⟩ : PolymorphicEvent).crts :=
  ⟨quota_exceed_graceful_stop.1 exCfg calmEnv exOneTask
      (fun _ => rfl) (fun _ => rfl) rfl rfl,
   quota_exceed_graceful_stop.2 exCfg exEnv ⟨0, 0⟩ 100 [] ⟨5, 10⟩ ⟨5, 4⟩
      [(⟨7, 10⟩, ⟨7, 6⟩)] (initState exCfg)
      (fun _ => rfl) (fun _ => rfl) rfl (by decide) rfl⟩

/-- C7 (amended; the fetch itself is modelled from the spec since the
sort engine is outside the analyzed sources): the worker opens the
cursor with upper bound (B-1, B) computed from the barrier value read
once at task start, and for every barrier B ≥ 1 only events strictly
before B are fetched; at B = 0 the wrap (see C10) breaks this. -/
theorem fetch_strictly_before_barrier
    (engineEvents : List (PolymorphicEvent × Position)) (lower : Position)
    (b : Nat) (h1 : 1 ≤ b) (h2 : b < 2 ^ 64) :
    ∀ it ∈ fetchByTable engineEvents lower (computeUpperBound b),
      it.2.commitTs < b := by
  intro it hit
  have hub : (computeUpperBound b).commitTs = b - 1 := by
    have hm : (2 : Nat) ^ 64 = 18446744073709551616 := by norm_num
    simp only [computeUpperBound, uint64Sub1, uint64Mod, hm]
    omega
  rw [fetchByTable, List.mem_filter] at hit
  have hlt : posLt it.2 (computeUpperBound b) = true := by
    have := hit.2
    simp only [Bool.and_eq_true] at this
    exact this.2
  rw [posLt] at hlt
  simp only [Bool.or_eq_true, Bool.and_eq_true, decide_eq_true_eq,
    beq_iff_eq] at hlt
  rcases hlt with hlt | ⟨heq, _⟩
  · omega
  · omega

/-- C7 witness: at barrier 100 the fetched event's position is strictly
before 100. -/
theorem fetch_strictly_before_barrier_witness :
    ((⟨5, 10⟩, ⟨5, 4⟩) : PolymorphicEvent × Position)
        ∈ fetchByTable [(⟨5, 10⟩, ⟨5, 4⟩)] ⟨0, 0⟩ (computeUpperBound 100)
      ∧ ((⟨5, 10⟩, ⟨5, 4⟩) : PolymorphicEvent × Position).2.commitTs < 100 :=
  ⟨by decide,
   fetch_strictly_before_barrier [(⟨5, 10⟩, ⟨5, 4⟩)] ⟨0, 0⟩ 100
     (by decide) (by decide) (⟨5, 10⟩, ⟨5, 4⟩) (by decide)⟩

/-- C7 counterexample: at barrier 0 the wrapped upper bound lets an event
with commit timestamp 5 be fetched although it is not strictly before
the barrier. -/
theorem fetch_at_barrier_zero_not_strictly_before :
    fetchByTable [(⟨5, 10⟩, ⟨5, 4⟩)] ⟨0, 0⟩ (computeUpperBound 0)
        = [(⟨5, 10⟩, ⟨5, 4⟩)]
      ∧ ¬ (5 : Nat) < 0 := by decide

end SinkWorker
